import Mathlib

/-!
Shallow embedding of the core of a small RISC-V supervisor kernel
(physical page pool, page-fault handler, VirtIO block driver, unified
I/O endpoints, seekable adapter, pipe, timer/alarm, and the KTFS inode
file system), together with theorems settling the specification claims.

Machine integers are modelled as `Nat`/`Int`; byte buffers as lists;
fallible paths as `Option`/explicit result types.  Each definition is a
direct translation of the corresponding C function in `src/code/sys`.
-/

set_option autoImplicit false

namespace KernelModel

/-- Page size in bytes (PAGE_SIZE, conf.h). -/
def PAGE_SIZE : Nat := 4096

/-- Largest value of a C `unsigned long long` (UINT64_MAX). -/
def UINT64MAX : Nat := 2 ^ 64 - 1

/-- Abstract error numbers.  `error.h` is not under `src/`; the codes are
only compared for identity by the kernel, so they are modelled as
distinct positive constants. -/
def EINVAL : Nat := 1

/-- Abstract error number for "device or resource busy". -/
def EBUSY : Nat := 2

/-- Abstract error number for "no such file". -/
def ENOENT : Nat := 3

/-- Abstract error number for an I/O error. -/
def EIO : Nat := 4

/-- Abstract error number for an unsupported operation. -/
def ENOTSUP : Nat := 5

/-- Abstract error number for "data blocks exhausted". -/
def ENODATABLKS : Nat := 6

/-- Abstract error number for "too many files". -/
def EMFILE : Nat := 7

/-- Abstract error number for a broken pipe. -/
def EPIPE : Nat := 8

/-! ### Physical page pool (memory.c) -/

/-- A chunk of consecutive free physical pages: start address and page
count (`struct page_chunk`; the address is the address of the chunk
header itself). -/
structure PageChunk where
  addr : Nat
  pagecnt : Nat
deriving Repr, DecidableEq

/-- Result of `alloc_phys_pages`: either an address plus the updated free
list, or a crash (dereference of the NULL `target` pointer, which the C
code performs when no chunk can accommodate the request). -/
inductive AllocRes where
  | ok (addr : Nat) (rest : List PageChunk)
  | crash
deriving Repr, DecidableEq

/-- First scan of `alloc_phys_pages`: remove the first chunk whose page
count is exactly `cnt`, returning its address and the remaining list. -/
def removeExactFit (cnt : Nat) : List PageChunk → Option (Nat × List PageChunk)
  | [] => none
  | c :: rest =>
      if c.pagecnt = cnt then some (c.addr, rest)
      else
        match removeExactFit cnt rest with
        | some (a, rest') => some (a, c :: rest')
        | none => none

/-- Second scan of `alloc_phys_pages`: select the first chunk whose page
count is strictly larger than `cnt` and strictly smaller than every
earlier candidate (the C loop keeps `target` and replaces it only on a
strictly smaller `pagecnt`). -/
def findMinLarger (cnt : Nat) (l : List PageChunk) : Option PageChunk :=
  l.foldl
    (fun best c =>
      if cnt < c.pagecnt then
        match best with
        | none => some c
        | some b => if c.pagecnt < b.pagecnt then some c else some b
      else best)
    none

/-- Replace the chunk at address `t.addr` by the shrunken remainder that
starts `cnt` pages later, as the C code does in place. -/
def shrinkChunk (cnt : Nat) (t : PageChunk) : List PageChunk → List PageChunk
  | [] => []
  | c :: rest =>
      if c = t then { addr := t.addr + cnt * PAGE_SIZE, pagecnt := t.pagecnt - cnt } :: rest
      else c :: shrinkChunk cnt t rest

/-- `alloc_phys_pages(cnt)` over a free-chunk list: exact-fit scan, then
smallest strictly larger chunk, splitting it in place.  When neither scan
finds a chunk the C code computes `target + cnt*PAGE_SIZE` with
`target == NULL` and stores through it, modelled as `crash`. -/
def alloc_phys_pages (cnt : Nat) (l : List PageChunk) : AllocRes :=
  match removeExactFit cnt l with
  | some (a, l') => .ok a l'
  | none =>
      match findMinLarger cnt l with
      | none => .crash
      | some t => .ok t.addr (shrinkChunk cnt t l)

/-! ### User page-fault handler (memory.c) -/

/-- RISC-V PTE permission flag values (riscv.h). -/
def PTE_R : Nat := 2

/-- RISC-V PTE write-permission flag. -/
def PTE_W : Nat := 4

/-- RISC-V PTE user-mode flag. -/
def PTE_U : Nat := 16

/-- A leaf mapping installed by the fault handler: virtual address,
physical page, permission flags. -/
structure Mapping where
  vma : Nat
  pp : Nat
  flags : Nat
deriving Repr, DecidableEq

/-- `map_page(vma, pp, rwxug_flags)` as far as the fault handler can
observe it: the function returns NULL only when the address is not
well-formed (`wf` models `wellformed(vma)`); otherwise it returns the
address — but it installs the new leaf only when no valid leaf PTE is
already present at the address (`leafValid` models
`PTE_VALID(pt0[VPN0(vma)])`): on an existing valid leaf it returns
success without writing anything.  The result pairs the returned address
with the mapping installed, if any. -/
def map_page (wf leafValid : Bool) (vma pp flags : Nat) :
    Option (Nat × Option Mapping) :=
  if wf = false then none
  else if leafValid then some (vma, none)
  else some (vma, some { vma := vma, pp := pp, flags := flags })

/-- `handle_umode_page_fault(tfr, vma)`.  `allocResult` is the value
returned by `alloc_phys_page` (`none` models the NULL sentinel); `wf`
and `leafValid` are the two conditions `map_page` reads (address
well-formedness and an already-valid leaf PTE at the address).  The
result is the C return value together with the mapping installed, if
any; on a `map_page` failure the freshly allocated frame is freed again
and no mapping remains installed, and on a `map_page` success over an
existing valid leaf nothing is installed either. -/
def handle_umode_page_fault (umemStart umemEnd vma : Nat)
    (allocResult : Option Nat) (wf leafValid : Bool) : Nat × Option Mapping :=
  if umemStart ≤ vma ∧ vma < umemEnd then
    match allocResult with
    | none => (0, none)
    | some pp =>
        match map_page wf leafValid vma pp (PTE_R + PTE_W + PTE_U) with
        | none => (0, none)
        | some (_, m) => (1, m)
  else (0, none)

/-- The page-fault behaviour of claim C4, as stated, at one range,
address, allocation result, and page-table situation: retry (1) exactly
when the address is in range and a frame was allocated and installed
with read/write/user permissions. -/
def pageFaultClaim (us ue vma : Nat) (alloc : Option Nat) (wf leafValid : Bool) : Prop :=
  (handle_umode_page_fault us ue vma alloc wf leafValid).1 = 1 ↔
    (us ≤ vma ∧ vma < ue) ∧ ∃ pp, alloc = some pp ∧
      (handle_umode_page_fault us ue vma alloc wf leafValid).2 =
        some { vma := vma, pp := pp, flags := PTE_R + PTE_W + PTE_U }

/-! ### VirtIO block driver (vioblk.c) -/

/-- `vioblk_readat(io, pos, buf, bufsz)` result value.  `capacity` and
`blkSize` come from the device configuration registers, `bufNull` is
whether the caller passed a NULL buffer, and `status` is the one-byte
status the device writes after each request (bit 0 = I/O error, bit 1 =
unsupported; the device is assumed to report the same status for each
block of one call).  The transfer loop copies `byteread / blkSize` whole
blocks and the call returns the clamped byte count. -/
def vioblk_readat (capacity blkSize : Nat) (bufNull : Bool) (status : Nat)
    (pos : Nat) (bufsz : Int) : Int :=
  let endpos : Nat := capacity * blkSize
  if pos = endpos then 0
  else if bufNull then -(EINVAL : Int)
  else if endpos < pos then -(EINVAL : Int)
  else if bufsz < 0 then -(EINVAL : Int)
  else if bufsz = 0 then 0
  else
    let byteread : Nat := if endpos < pos + bufsz.toNat then endpos - pos else bufsz.toNat
    let numBlocks : Nat := byteread / blkSize
    if 0 < numBlocks ∧ status % 2 = 1 then -( EIO : Int)
    else if 0 < numBlocks ∧ status / 2 % 2 = 1 then -(ENOTSUP : Int)
    else (byteread : Int)

/-- Number of data bytes actually copied into the caller's buffer by one
`vioblk_readat` call that runs to completion: the loop copies whole
blocks only. -/
def vioblk_read_copied (capacity blkSize : Nat) (pos : Nat) (bufsz : Int) : Nat :=
  let endpos : Nat := capacity * blkSize
  let byteread : Nat := if endpos < pos + bufsz.toNat then endpos - pos else bufsz.toNat
  byteread / blkSize * blkSize

/-- The capacity-crossing behaviour of claim C3, as stated, at one
position and length: the clamped count capacity-minus-position is both
returned and actually transferred into the buffer. -/
def vioblkClampClaim (capacity blkSize : Nat) (pos : Nat) (bufsz : Int) : Prop :=
  pos < capacity * blkSize → capacity * blkSize < pos + bufsz.toNat →
    vioblk_readat capacity blkSize false 0 pos bufsz =
      ((capacity * blkSize - pos : Nat) : Int) ∧
    vioblk_read_copied capacity blkSize pos bufsz = capacity * blkSize - pos

/-! ### Endpoint reference counting (io.c) -/

/-- Reference-count state of one endpoint: the current count and the
number of times the operation table's close function has been invoked
so far. -/
structure EpState where
  refcnt : Nat
  closeCalls : Nat
deriving Repr, DecidableEq

/-- Operations performed on an endpoint after its initialization.
`seekCloseBk` is what `seekio_close` does to the adapter's backing
endpoint: a raw `refcnt--` followed by an `ioclose` call. -/
inductive EpOp where
  | addrefOp
  | iocloseOp
  | seekCloseBk
deriving Repr, DecidableEq

/-- `ioinit1`: a freshly created endpoint has reference count 1 and has
never had its close function invoked. -/
def ioinit1St : EpState := { refcnt := 1, closeCalls := 0 }

/-- `ioaddref`: increment the reference count. -/
def ioaddrefSt (s : EpState) : EpState := { s with refcnt := s.refcnt + 1 }

/-- `ioclose`: assert the count is nonzero (`none` models the assertion
failing), decrement it, and invoke the operation table's close function
exactly when the count becomes zero. -/
def iocloseSt (s : EpState) : Option EpState :=
  if s.refcnt = 0 then none
  else
    let r := s.refcnt - 1
    some { refcnt := r, closeCalls := s.closeCalls + (if r = 0 then 1 else 0) }

/-- Effect of `seekio_close` on the backing endpoint: the raw
`sio->bkgio->refcnt--` (64-bit wrapping) followed by `ioclose`. -/
def seekCloseBkSt (s : EpState) : Option EpState :=
  iocloseSt { s with refcnt := (s.refcnt + UINT64MAX) % 2 ^ 64 }

/-- Run a sequence of endpoint operations from a given state; `none`
means some `ioclose` hit the `refcnt != 0` assertion. -/
def epRun (s : EpState) : List EpOp → Option EpState
  | [] => some s
  | op :: t =>
      match op with
      | .addrefOp => epRun (ioaddrefSt s) t
      | .iocloseOp =>
          match iocloseSt s with
          | none => none
          | some s' => epRun s' t
      | .seekCloseBk =>
          match seekCloseBkSt s with
          | none => none
          | some s' => epRun s' t

/-- Number of `addref` calls in a trace. -/
def countAddref (t : List EpOp) : Nat := t.countP (· = EpOp.addrefOp)

/-- Number of `ioclose` calls in a trace (a seekable-adapter close calls
`ioclose` on the backing endpoint exactly once). -/
def countClose (t : List EpOp) : Nat :=
  t.countP (fun op => op = EpOp.iocloseOp ∨ op = EpOp.seekCloseBk)

/-- Number of times a pure-API trace decrements the count to zero when
started from reference count `r` (used to characterise when the
operation table's close runs). -/
def zeroHits (r : Nat) : List EpOp → Nat
  | [] => 0
  | .addrefOp :: t => zeroHits (r + 1) t
  | .iocloseOp :: t => (if r = 1 then 1 else 0) + zeroHits (r - 1) t
  | .seekCloseBk :: t => (if r = 2 then 1 else 0) + zeroHits (r - 2) t

/-- The reference-count ledger of claim C2, as stated: after any
successful operation sequence on an endpoint initialised with count 1,
the outstanding count equals the init/addref calls minus the close
calls. -/
def epLedgerClaim (t : List EpOp) : Prop :=
  ∀ s, epRun ioinit1St t = some s → s.refcnt + countClose t = 1 + countAddref t

/-! ### Seekable adapter (io.c) -/

/-- Seekable-adapter fields relevant to streaming requests
(`struct seekio`): current position, cached end position, and the
backing endpoint's block size. -/
structure SeekSt where
  pos : Nat
  endp : Nat
  blksz : Nat
deriving Repr, DecidableEq

/-- Result of a streaming request on the seekable adapter: an error
return, an immediate 0, a pass-through to the backing positional
endpoint at a position and length, or (for writes) a successful
set-end control call followed by the pass-through. -/
inductive SeekRes where
  | errRes (e : Int)
  | ret0
  | pass (pos len : Nat)
  | extendPass (newEnd pos len : Nat)
deriving Repr, DecidableEq

/-- The unsigned 64-bit value of `end - pos` as the C code computes it. -/
def u64sub (a b : Nat) : Nat := (a + 2 ^ 64 - b % 2 ^ 64) % 2 ^ 64

/-- `seekio_read` reached through `ioread` (which rejects a negative
size).  The request is clamped to the cached end, a zero request
returns 0, a request smaller than one block fails with `EINVAL`, and
otherwise the size is truncated to a multiple of the block size
(`bufsz &= ~(blksz-1)`) and forwarded to the backing `readat`. -/
def seekio_read (s : SeekSt) (bufsz : Int) : SeekRes :=
  if bufsz < 0 then .errRes (-(EINVAL : Int))
  else
    let avail := u64sub s.endp s.pos
    let b := if avail < bufsz.toNat then avail else bufsz.toNat
    if b = 0 then .ret0
    else if b < s.blksz then .errRes (-(EINVAL : Int))
    else .pass s.pos (b - b % s.blksz)

/-- `seekio_write` reached through `iowrite` (which rejects a negative
length).  `setendResult` is what the backing endpoint's `IOCTL_SETEND`
returns when the write extends past the cached end. -/
def seekio_write (s : SeekSt) (setendResult : Int) (len : Int) : SeekRes :=
  if len < 0 then .errRes (-(EINVAL : Int))
  else if len = 0 then .ret0
  else if len.toNat < s.blksz then .errRes (-(EINVAL : Int))
  else
    let l := len.toNat - len.toNat % s.blksz
    if u64sub s.endp s.pos < l then
      if UINT64MAX - s.pos % 2 ^ 64 < l then .errRes (-(EINVAL : Int))
      else if setendResult = 0 then .extendPass (s.pos + l) s.pos l
      else .errRes setendResult
    else .pass s.pos l

/-- The streaming-request rule of claim C8, as stated: a request whose
size is not a positive multiple of the block size fails, and a positive
multiple is passed through with its full size. -/
def seekReqClaim (s : SeekSt) (bufsz : Int) : Prop :=
  (¬ (0 < bufsz ∧ bufsz % (s.blksz : Int) = 0) →
      ∃ e, seekio_read s bufsz = .errRes e) ∧
  ((0 < bufsz ∧ bufsz % (s.blksz : Int) = 0) →
      seekio_read s bufsz = .pass s.pos bufsz.toNat)

/-! ### Pipe (io.c) -/

/-- Pipe state shared by the two endpoints: the page-sized ring buffer
(cell index modulo `PAGE_SIZE` to byte), the monotonically increasing
head and tail counters, the `data` byte counter, and the writer
endpoint's reference count. -/
structure PipeSt where
  buf : Nat → Nat
  headpos : Nat
  tailpos : Nat
  dataCnt : Nat
  writerRef : Nat

/-- `rbuf_empty`: head equals tail. -/
def rbuf_empty (p : PipeSt) : Bool := p.headpos = p.tailpos

/-- `rbuf_getc`: read the byte at the head and advance the head. -/
def rbuf_getc (p : PipeSt) : Nat × PipeSt :=
  (p.buf (p.headpos % PAGE_SIZE), { p with headpos := p.headpos + 1 })

/-- Outcome of one `pipe_read` call.  `waits` records that the reader
suspended on the not-empty condition; `drained` carries the bytes
delivered, the return value, the final state, and whether the not-full
condition was broadcast. -/
inductive PipeReadRes where
  | errRes (e : Int)
  | ret0
  | waits
  | eofRes
  | drained (out : List Nat) (ret : Int) (s : PipeSt) (notfullBroadcast : Bool)

/-- The drain loop of `pipe_read`: up to `fuel` iterations, each taking
one byte while the ring is non-empty and decrementing `data`; on an
empty ring the loop exits early. -/
def pipeDrain (p : PipeSt) (fuel : Nat) : List Nat × PipeSt :=
  match fuel with
  | 0 => ([], p)
  | n + 1 =>
      if rbuf_empty p then ([], p)
      else
        let (c, p1) := rbuf_getc p
        let p2 := { p1 with dataCnt := p1.dataCnt - 1 }
        let (rest, p3) := pipeDrain p2 n
        (c :: rest, p3)

/-- `pipe_read(io, buf, bufsz)`: argument checks, then the
empty-buffer/end-of-file logic, then the drain loop; both drain exits
broadcast the not-full condition. -/
def pipe_read (p : PipeSt) (bufsz : Int) : PipeReadRes :=
  if bufsz = 0 then .ret0
  else if bufsz < 0 then .errRes (-(EINVAL : Int))
  else if rbuf_empty p ∧ 0 < p.writerRef then .waits
  else if rbuf_empty p ∧ p.writerRef = 0 then .eofRes
  else
    let (out, p') := pipeDrain p bufsz.toNat
    .drained out (out.length : Int) p' true

/-- The `pipe_read` behaviour of claim C9, as stated, at one state and
request size. -/
def pipeReadClaim (p : PipeSt) (bufsz : Int) : Prop :=
  (rbuf_empty p ∧ 0 < p.writerRef → pipe_read p bufsz = .waits) ∧
  (rbuf_empty p ∧ p.writerRef = 0 → pipe_read p bufsz = .eofRes) ∧
  (¬ rbuf_empty p →
      ∃ out p', pipe_read p bufsz = .drained out (out.length : Int) p' true ∧
        (out.length : Int) ≤ bufsz)

/-! ### Timer and alarms (timer.c) -/

/-- An alarm: an identifier for its condition, whether its condition is
named "interrupter" (the preemption alarm), and its wake time in
ticks. -/
structure Alarm where
  ident : Nat
  interrupter : Bool
  twake : Nat
deriving Repr, DecidableEq

/-- Timer state: the sorted sleep list, the compare register
(`stimecmp`), whether the supervisor timer interrupt is enabled
(`SIE.STIE`), and the conditions broadcast so far (by identifier, in
order). -/
structure TimerSt where
  sleepList : List Alarm
  stcmp : Nat
  stie : Bool
  broadcasts : List Nat

/-- Inner insertion walk of `alarm_sleep`: starting after the head, skip
alarms with strictly smaller wake time, then link the new alarm in. -/
def insertWalk (al : Alarm) : List Alarm → List Alarm
  | [] => [al]
  | c :: t => if c.twake < al.twake then c :: insertWalk al t else al :: c :: t

/-- Sorted insertion into the sleep list as `alarm_sleep` performs it:
empty list, new head, or the walk after the head. -/
def sleepInsert (al : Alarm) : List Alarm → List Alarm
  | [] => [al]
  | h :: t => if al.twake < h.twake then al :: h :: t else h :: insertWalk al t

/-- Saturating advance of a wake time by `tcnt` ticks as `alarm_sleep`
computes it. -/
def advanceTwake (twake tcnt : Nat) : Nat :=
  if UINT64MAX - twake < tcnt then UINT64MAX else twake + tcnt

/-- `alarm_sleep(al, tcnt)` at machine time `now`: advance the wake time
(saturating); if it has already passed, return at once; otherwise insert
into the sleep list, program the compare register to the head's wake
time, enable the timer interrupt, and condition-wait unless the alarm is
the preemption alarm.  Returns the updated alarm, the updated timer
state, and whether the caller waited. -/
def alarm_sleep (al : Alarm) (tcnt now : Nat) (st : TimerSt) :
    Alarm × TimerSt × Bool :=
  let al' := { al with twake := advanceTwake al.twake tcnt }
  if al'.twake < now then (al', st, false)
  else
    let l := sleepInsert al' st.sleepList
    let cmp := match l with
      | [] => st.stcmp
      | h :: _ => h.twake
    (al', { st with sleepList := l, stcmp := cmp, stie := true },
      !al'.interrupter)

/-- Ticks in 20 ms at timer frequency `tfreq`
(`alarm_sleep_ms(al, 20)`). -/
def ticks20ms (tfreq : Nat) : Nat := 20 * (tfreq / 1000)

/-- Number of sleep-list alarms whose wake time has strictly passed;
termination measure for the timer ISR loop. -/
def expiredCount (now : Nat) (l : List Alarm) : Nat :=
  l.countP (fun a => a.twake < now)

/-- The while loop of `handle_timer_interrupt`: while the head's wake
time has strictly passed, remove it and broadcast its condition — or,
for the preemption alarm, reset its wake time to now and re-arm it 20 ms
out via `alarm_sleep_ms`. -/
def timerLoop (tfreq now : Nat) (st : TimerSt) : TimerSt :=
  match hl : st.sleepList with
  | [] => st
  | a :: rest =>
      if hlt : a.twake < now then
        if a.interrupter then
          timerLoop tfreq now
            (alarm_sleep { a with twake := now } (ticks20ms tfreq) now
              { st with sleepList := rest }).2.1
        else
          timerLoop tfreq now
            { st with sleepList := rest, broadcasts := st.broadcasts ++ [a.ident] }
      else st
termination_by expiredCount now st.sleepList
decreasing_by
  · have hwalk : ∀ (al : Alarm) (l : List Alarm),
        (insertWalk al l).countP (fun x => x.twake < now) =
          l.countP (fun x => x.twake < now) +
            (if al.twake < now then 1 else 0) := by
      intro al l
      induction l with
      | nil => simp [insertWalk, List.countP_cons]
      | cons c t ih =>
          by_cases h : c.twake < al.twake <;>
            simp [insertWalk, h, List.countP_cons, ih] <;> omega
    have hins : ∀ (al : Alarm) (l : List Alarm),
        (sleepInsert al l).countP (fun x => x.twake < now) =
          l.countP (fun x => x.twake < now) +
            (if al.twake < now then 1 else 0) := by
      intro al l
      cases l with
      | nil => simp [sleepInsert, List.countP_cons]
      | cons h t =>
          by_cases hc : al.twake < h.twake <;>
            simp [sleepInsert, hc, List.countP_cons, hwalk] <;> omega
    simp only [alarm_sleep, expiredCount, hl, List.countP_cons, hlt]
    split
    · simp [hlt]
    · rename_i hge
      simp only [hins]
      simp only [if_neg hge]
      simp [hlt]
  · simp [expiredCount, hl, List.countP_cons, hlt]

/-- `handle_timer_interrupt` at machine time `now`: run the wake loop,
then reprogram the compare register to the new head's wake time, or
disable the timer interrupt source if the list is empty. -/
def handle_timer_interrupt (tfreq now : Nat) (st : TimerSt) : TimerSt :=
  let st1 := timerLoop tfreq now st
  match st1.sleepList with
  | [] => { st1 with stie := false }
  | a :: _ => { st1 with stcmp := a.twake }

/-- The timer-ISR behaviour of claim C6, as stated, at one state: every
non-preemption alarm whose wake time is less than or equal to now is
removed from the list and broadcast. -/
def timerIsrClaim (tfreq now : Nat) (st : TimerSt) : Prop :=
  ∀ a ∈ st.sleepList, a.twake ≤ now → a.interrupter = false →
    a ∉ (handle_timer_interrupt tfreq now st).sleepList ∧
    a.ident ∈ (handle_timer_interrupt tfreq now st).broadcasts

/-! ### KTFS inode file system (ktfs.c)

The 512-byte disk blocks are modelled as typed views: the bitmap region,
the inode region (a block index and a 32-byte slot index), data blocks
viewed as arrays of 128 block numbers (indirect blocks), and data blocks
viewed as arrays of 16 directory entries.  Data-block numbers are kept
relative to data block 0, exactly as stored on disk; the C code's
`global_datablock_0` translation to absolute positions cancels out of
every operation modelled here.  Cache get/release pairs become direct
reads and immediate writes.  File names are abstract identifiers
compared for equality, matching the `strncmp` comparisons. -/

/-- KTFS block size in bytes. -/
def KTFS_BLKSZ : Nat := 512

/-- Size of an on-disk inode in bytes. -/
def KTFS_INOSZ : Nat := 32

/-- Size of a directory entry in bytes. -/
def KTFS_DENSZ : Nat := 32

/-- Inodes per inode block (512 / 32). -/
def INODES_PER_BLK : Nat := 16

/-- Directory entries per directory block (512 / 32). -/
def DIR_SIZE : Nat := 16

/-- Direct block pointers per inode. -/
def KTFS_NUM_DIRECT_DATA_BLOCKS : Nat := 4

/-- Double-indirect block pointers per inode. -/
def KTFS_NUM_DINDIRECT_BLOCKS : Nat := 2

/-- Block numbers per indirect block (512 / 4). -/
def KTFS_BLKS_PER_INDIRECT : Nat := 128

/-- Data blocks reachable from one double-indirect block (128 * 128). -/
def KTFS_BLKS_PER_DINDIRECT : Nat := KTFS_BLKS_PER_INDIRECT * KTFS_BLKS_PER_INDIRECT

/-- An on-disk inode: byte size, four direct block numbers, one indirect
block number, two double-indirect block numbers. -/
structure Inode where
  size : Nat
  block : List Nat
  indirect : Nat
  dindirect : List Nat
deriving Repr, DecidableEq

/-- The all-zero inode (what `memset` leaves behind). -/
def zeroInode : Inode :=
  { size := 0, block := [0, 0, 0, 0], indirect := 0, dindirect := [0, 0] }

/-- A directory entry: file name (abstract identifier) and inode
number. -/
structure DirEntry where
  name : Nat
  inode : Nat
deriving Repr, DecidableEq

/-- The all-zero directory entry. -/
def zeroEntry : DirEntry := { name := 0, inode := 0 }

/-- File-system state: the superblock fields consumed by the modelled
operations, the in-memory root directory inode and open-file name table,
the in-memory inode bitmap, and the typed views of the disk (on-disk
bitmap bytes, inode slots, indirect-pointer blocks, directory
blocks). -/
structure FsSt where
  bitmapBlockCount : Nat
  rootInodeNum : Nat
  rootDirInode : Inode
  openNames : List Nat
  inodeBitmap : Nat → Nat
  bitmap : Nat → Nat → Nat
  diskInodes : Nat → Nat → Inode
  ptrBlocks : Nat → Nat → Nat
  dirBlocks : Nat → Nat → DirEntry

/-- An open file (`struct ktfs_file`): the cached directory entry and
the cached inode. -/
structure KtfsFile where
  dentry : DirEntry
  inode : Inode
deriving Repr, DecidableEq

/-- Clear bit `bit` of byte `v` (`v &= ~(1 << bit)`). -/
def clearBit (v bit : Nat) : Nat :=
  if v / 2 ^ bit % 2 = 1 then v - 2 ^ bit else v

/-- First clear bit of a bitmap byte, scanned from bit 7 down to bit 0
as `allocate_open_block` does. -/
def findFreeBit (b : Nat) : Option Nat :=
  (List.range 8).findSome? fun k =>
    let bit := 7 - k
    if b / 2 ^ bit % 2 = 0 then some bit else none

/-- Scan one 512-byte bitmap block for a clear bit, returning the byte
index and bit position. -/
def scanBitmapBlock (blk : Nat → Nat) : Option (Nat × Nat) :=
  (List.range KTFS_BLKSZ).findSome? fun byteIdx =>
    (findFreeBit (blk byteIdx)).map fun bit => (byteIdx, bit)

/-- `allocate_open_block`: scan the bitmap blocks in order for the first
clear bit, set it, and return the corresponding data-block number; when
every bit is set the C code returns `-ENODATABLKS`, modelled as
`none`. -/
def allocate_open_block (st : FsSt) : Option (Nat × FsSt) :=
  ((List.range st.bitmapBlockCount).findSome? fun blockIdx =>
      (scanBitmapBlock (st.bitmap blockIdx)).map fun hit =>
        (blockIdx, hit.1, hit.2)).map
    fun hit =>
      (hit.1 * (KTFS_BLKSZ * 8) + (hit.2.1 * 8 + hit.2.2),
        { st with bitmap := fun b y =>
            if b = hit.1 ∧ y = hit.2.1 then st.bitmap hit.1 hit.2.1 ||| 2 ^ hit.2.2
            else st.bitmap b y })

/-- `free_block(block_num)`: clear the block's bit in the on-disk
bitmap. -/
def free_block (st : FsSt) (bn : Nat) : FsSt :=
  let blk := bn / (KTFS_BLKSZ * 8)
  let off := bn % (KTFS_BLKSZ * 8)
  let byteIdx := off / 8
  let bit := off % 8
  { st with bitmap := fun b y =>
      if b = blk ∧ y = byteIdx then clearBit (st.bitmap blk byteIdx) bit
      else st.bitmap b y }

/-- `write_inode_to_disk`: store the in-memory inode into its on-disk
slot (block `inodeNum / 16`, slot `inodeNum % 16`). -/
def write_inode_to_disk (inodeNum : Nat) (ino : Inode) (st : FsSt) : FsSt :=
  { st with diskInodes := fun b s =>
      if b = inodeNum / INODES_PER_BLK ∧ s = inodeNum % INODES_PER_BLK then ino
      else st.diskInodes b s }

/-- `inodeidxblocknum` (and the identical `blocknum`): translate a
logical block index of a file into the data-block number recorded on
disk, walking direct, indirect, then the two double-indirect trees.  The
C function returns the absolute block number (`+ global_datablock_0`);
this model returns the relative number that its callers reconstruct. -/
def inodeidxblocknum (st : FsSt) (ino : Inode) (idx : Nat) : Nat :=
  if idx < KTFS_NUM_DIRECT_DATA_BLOCKS then ino.block.getD idx 0
  else if idx < KTFS_BLKS_PER_INDIRECT + KTFS_NUM_DIRECT_DATA_BLOCKS then
    st.ptrBlocks ino.indirect (idx - KTFS_NUM_DIRECT_DATA_BLOCKS)
  else
    let newidx := idx - KTFS_NUM_DIRECT_DATA_BLOCKS - KTFS_BLKS_PER_INDIRECT
    let di := if newidx < KTFS_BLKS_PER_DINDIRECT then 0 else 1
    let ni := if newidx < KTFS_BLKS_PER_DINDIRECT then newidx
              else newidx - KTFS_BLKS_PER_DINDIRECT
    let indirectnum := st.ptrBlocks (ino.dindirect.getD di 0) (ni / KTFS_BLKS_PER_INDIRECT)
    st.ptrBlocks indirectnum (ni % KTFS_BLKS_PER_INDIRECT)

/-- Store one entry of an indirect-pointer block. -/
def setPtr (st : FsSt) (blkNum idx v : Nat) : FsSt :=
  { st with ptrBlocks := fun b k =>
      if b = blkNum ∧ k = idx then v else st.ptrBlocks b k }

/-- The first half of `add_new_inode_datablk`'s indirect case: when the
new block is the first past the direct region (`old_idx < 4`), allocate
the indirect block itself, install it in the inode, and write the inode
back; otherwise leave the file and state untouched. -/
def add_new_indirect_blk (f : KtfsFile) (st : FsSt) (old_idx : Nat) :
    Except Nat (KtfsFile × FsSt) :=
  if old_idx < KTFS_NUM_DIRECT_DATA_BLOCKS then
    match allocate_open_block st with
    | none => .error ENODATABLKS
    | some (b, st1) =>
        let f1 := { f with inode := { f.inode with indirect := b } }
        .ok (f1, write_inode_to_disk f1.dentry.inode f1.inode st1)
  else .ok (f, st)

/-- The first half of `add_new_inode_datablk`'s double-indirect case:
when the new block is the first of a double-indirect region (`nzo == 0`
or `nzo == KTFS_BLKS_PER_DINDIRECT`), allocate the double-indirect block,
install it in slot 0 or 1, and write the inode back; otherwise leave the
file and state untouched. -/
def add_new_dindirect_blk (f : KtfsFile) (st : FsSt) (nzo : Nat) :
    Except Nat (KtfsFile × FsSt) :=
  if nzo = 0 then
    match allocate_open_block st with
    | none => .error ENODATABLKS
    | some (b, st1) =>
        let f1 := { f with inode := { f.inode with dindirect := f.inode.dindirect.set 0 b } }
        .ok (f1, write_inode_to_disk f1.dentry.inode f1.inode st1)
  else if nzo = KTFS_BLKS_PER_DINDIRECT then
    match allocate_open_block st with
    | none => .error ENODATABLKS
    | some (b, st1) =>
        let f1 := { f with inode := { f.inode with dindirect := f.inode.dindirect.set 1 b } }
        .ok (f1, write_inode_to_disk f1.dentry.inode f1.inode st1)
  else .ok (f, st)

/-- The second half of `add_new_inode_datablk`'s double-indirect case:
when the new block is the first of a 128-block group
(`indirectoffset == 0`), allocate an indirect block under the
double-indirect block `dblk` and record it at `indirectidx`; otherwise
leave the state untouched. -/
def add_new_group_indirect (st1 : FsSt) (dblk indirectidx indirectoffset : Nat) :
    Except Nat FsSt :=
  if indirectoffset = 0 then
    match allocate_open_block st1 with
    | none => .error ENODATABLKS
    | some (b, st2) => .ok (setPtr st2 dblk indirectidx b)
  else .ok st1

/-- `add_new_inode_datablk(fio, old_idx)`: allocate a data block for
logical index `old_idx + 1` and install it — directly in the inode, via
the indirect block (allocating the indirect block itself when index
`old_idx + 1` is the first past the direct region), or via the
double-indirect trees (allocating the double-indirect block when the
index is the first of its region, and an indirect block under it when
the index is the first of a 128-block group).  The C function returns 1
on success and `-ENODATABLKS` when the bitmap is full; an error return
leaves any blocks installed so far in place, which no caller observes
and which this model therefore does not track. -/
def add_new_inode_datablk (f : KtfsFile) (st : FsSt) (old_idx : Nat) :
    Except Nat (KtfsFile × FsSt) :=
  let new_idx := old_idx + 1
  if new_idx < KTFS_NUM_DIRECT_DATA_BLOCKS then
    match allocate_open_block st with
    | none => .error ENODATABLKS
    | some (b, st1) =>
        let f1 := { f with inode := { f.inode with block := f.inode.block.set new_idx b } }
        .ok (f1, write_inode_to_disk f1.dentry.inode f1.inode st1)
  else if new_idx < KTFS_BLKS_PER_INDIRECT + KTFS_NUM_DIRECT_DATA_BLOCKS then
    match add_new_indirect_blk f st old_idx with
    | .error e => .error e
    | .ok (f1, st1) =>
        match allocate_open_block st1 with
        | none => .error ENODATABLKS
        | some (b2, st2) =>
            .ok (f1, setPtr st2 f1.inode.indirect (new_idx - KTFS_NUM_DIRECT_DATA_BLOCKS) b2)
  else
    let nzo := new_idx - KTFS_NUM_DIRECT_DATA_BLOCKS - KTFS_BLKS_PER_INDIRECT
    match add_new_dindirect_blk f st nzo with
    | .error e => .error e
    | .ok (f1, st1) =>
        let di := if nzo < KTFS_BLKS_PER_DINDIRECT then 0 else 1
        let nzo2 := if nzo < KTFS_BLKS_PER_DINDIRECT then nzo else nzo - KTFS_BLKS_PER_DINDIRECT
        let indirectidx := nzo2 / KTFS_BLKS_PER_INDIRECT
        let indirectoffset := nzo2 % KTFS_BLKS_PER_INDIRECT
        match add_new_group_indirect st1 (f1.inode.dindirect.getD di 0)
            indirectidx indirectoffset with
        | .error e => .error e
        | .ok st2 =>
            let indirectnum := st2.ptrBlocks (f1.inode.dindirect.getD di 0) indirectidx
            match allocate_open_block st2 with
            | none => .error ENODATABLKS
            | some (b3, st3) =>
                .ok (f1, setPtr st3 indirectnum indirectoffset b3)

/-- Round a byte size up to the next block boundary
(`(n + 511) / 512 * 512`). -/
def roundUpBlk (n : Nat) : Nat := (n + KTFS_BLKSZ - 1) / KTFS_BLKSZ * KTFS_BLKSZ

/-- The grow loop of `ktfs_cntl`'s set-end case (`while size < end`):
round the size up to the block boundary; if that overshoots the target,
set the size exactly and write the inode back; otherwise allocate the
next block (the initial block directly when the file is empty, otherwise
via `add_new_inode_datablk`), bump the size to the next block boundary,
and continue.  On loop exit the size is set exactly to the target and
the inode is written back.  `garbage` models the indeterminate value of
the local `ret` that the empty-file branch leaves uninitialized and the
following `if (ret == -ENODATABLKS)` reads: `true` makes that read equal
`-ENODATABLKS`. -/
def ktfs_setend_grow (f : KtfsFile) (st : FsSt) (endv : Nat) (garbage : Bool) :
    Except Nat (KtfsFile × FsSt) :=
  if f.inode.size < endv then
    let sizeR := roundUpBlk f.inode.size
    if endv < sizeR then
      let f2 := { f with inode := { f.inode with size := endv } }
      .ok (f2, write_inode_to_disk f2.dentry.inode f2.inode st)
    else if sizeR = 0 then
      match allocate_open_block st with
      | none => .error ENODATABLKS
      | some (b, st1) =>
          let f2 := { f with inode :=
            { f.inode with size := sizeR, block := f.inode.block.set 0 b } }
          let st2 := write_inode_to_disk f2.dentry.inode f2.inode st1
          if garbage then .error ENODATABLKS
          else
            ktfs_setend_grow
              { f2 with inode := { f2.inode with
                  size := sizeR / KTFS_BLKSZ * KTFS_BLKSZ + KTFS_BLKSZ } }
              st2 endv garbage
    else
      match add_new_inode_datablk { f with inode := { f.inode with size := sizeR } }
          st ((sizeR - 1) / KTFS_BLKSZ) with
      | .error e => .error e
      | .ok (f2, st2) =>
          ktfs_setend_grow
            { f2 with inode := { f2.inode with
                size := sizeR / KTFS_BLKSZ * KTFS_BLKSZ + KTFS_BLKSZ } }
            st2 endv garbage
  else
    let f2 := { f with inode := { f.inode with size := endv } }
    .ok (f2, write_inode_to_disk f2.dentry.inode f2.inode st)
termination_by endv - f.inode.size
decreasing_by
  · simp only [roundUpBlk, KTFS_BLKSZ] at *
    omega
  · simp only [roundUpBlk, KTFS_BLKSZ] at *
    omega

/-- The `IOCTL_SETEND` case of `ktfs_cntl`: reject a NULL argument,
succeed without changes when the requested end equals the current size,
grow when it is larger, and return `-EINVAL` otherwise. -/
def ktfs_cntl_setend (f : KtfsFile) (st : FsSt) (arg : Option Nat) (garbage : Bool) :
    Except Nat (KtfsFile × FsSt) :=
  match arg with
  | none => .error EINVAL
  | some endv =>
      if endv = f.inode.size then .ok (f, st)
      else if f.inode.size < endv then ktfs_setend_grow f st endv garbage
      else .error EINVAL

/-- The set-end behaviour of claim C1, as stated, at one open file,
state, and request: a request smaller than the current size succeeds. -/
def setendShrinkClaim (f : KtfsFile) (st : FsSt) (endv : Nat) : Prop :=
  endv < f.inode.size →
    ∃ f2 st2, ktfs_cntl_setend f st (some endv) false = .ok (f2, st2) ∧
      f2.inode.size = endv

/-- Directory-block search of `ktfs_delete` and `ktfs_open` within one
block: index of the first entry whose name matches. -/
def findInBlock (st : FsSt) (name blkNum : Nat) : Option Nat :=
  (List.range DIR_SIZE).find? fun j => (st.dirBlocks blkNum j).name = name

/-- The search loop of `ktfs_delete`: scan the four direct blocks of the
root directory; within a block the first match wins (`break`), across
blocks the last matching block wins (the outer loop continues).  Returns
the block index, entry index, and the entry. -/
def deleteSearch (st : FsSt) (name : Nat) : Option (Nat × Nat × DirEntry) :=
  (List.range KTFS_NUM_DIRECT_DATA_BLOCKS).foldl
    (fun acc i =>
      match findInBlock st name (st.rootDirInode.block.getD i 0) with
      | some j => some (i, j, st.dirBlocks (st.rootDirInode.block.getD i 0) j)
      | none => acc)
    none

/-- `ktfs_close` as it affects the open-file name table: swap the
closing file's slot with the last occupied slot and shrink the
table. -/
def openCloseAt (l : List Nat) (f : Nat) : List Nat :=
  let n := l.length
  ((l.set (n - 1) (l.getD f 0)).set f (l.getD (n - 1) 0)).dropLast

/-- Free every data block recorded for the first `fsib` logical indexes
of an inode (the first loop of `ktfs_delete`). -/
def freeDataBlocks (ino : Inode) (fsib : Nat) (st : FsSt) : FsSt :=
  (List.range fsib).foldl (fun s i => free_block s (inodeidxblocknum s ino i)) st

/-- Free the indirect blocks hanging off the double-indirect trees and
the double-indirect blocks themselves (the second loop of
`ktfs_delete`). -/
def freeDindirect (ino : Inode) (st : FsSt) : FsSt :=
  (List.range KTFS_NUM_DINDIRECT_BLOCKS).foldl
    (fun s i =>
      let d := ino.dindirect.getD i 0
      if d ≠ 0 then
        let s2 := (List.range KTFS_BLKS_PER_INDIRECT).foldl
          (fun s3 j => if s3.ptrBlocks d j ≠ 0 then free_block s3 (s3.ptrBlocks d j) else s3) s
        free_block s2 d
      else s)
    st

/-- The open-file check of `ktfs_delete`: when the name is in the
open-file table, close it (`ktfs_close`). -/
def deleteClose (st0 : FsSt) (entry : DirEntry) : FsSt :=
  match (List.range st0.openNames.length).find?
      (fun f => st0.openNames.getD f 0 = entry.name) with
  | some f => { st0 with openNames := openCloseAt st0.openNames f }
  | none => st0

/-- The block-freeing phase of `ktfs_delete`: clear the bitmap bit of
every data block of the file, of the indirect block when the file spills
past the direct region, and of the indirect and double-indirect blocks
of the double-indirect trees when it spills past the indirect region. -/
def deleteFreePhase (st : FsSt) (entry : DirEntry) : FsSt :=
  let ino := st.diskInodes (entry.inode / INODES_PER_BLK) (entry.inode % INODES_PER_BLK)
  let fsib := (ino.size + KTFS_BLKSZ - 1) / KTFS_BLKSZ
  let st1 := freeDataBlocks ino fsib st
  let st2 := if KTFS_NUM_DIRECT_DATA_BLOCKS < fsib ∧ ino.indirect ≠ 0 then
      free_block st1 ino.indirect
    else st1
  if KTFS_NUM_DIRECT_DATA_BLOCKS + KTFS_BLKS_PER_INDIRECT < fsib then
    freeDindirect ino st2
  else st2

/-- The directory-update phase of `ktfs_delete`: swap-delete the entry
(overwrite the deleted slot with the last entry; zero the last slot only
when it lives in a different directory block), clear the in-memory inode
bitmap entry, zero the on-disk inode (at byte offset `inodeidx * 32`
within the inode's block, as the C code computes it), decrement the root
directory size by 32, and write the root inode back. -/
def deleteSwapPhase (st3 : FsSt) (blkidx dentryidx inodeidx : Nat) : FsSt :=
  let nf := st3.rootDirInode.size / KTFS_DENSZ
  let lastBlk := (nf - 1) / DIR_SIZE
  let lastIdx := (nf - 1) % DIR_SIZE
  let lastEntry := st3.dirBlocks (st3.rootDirInode.block.getD lastBlk 0) lastIdx
  let delBlkNum := st3.rootDirInode.block.getD blkidx 0
  let st4 := { st3 with dirBlocks := fun b k =>
      if b = delBlkNum ∧ k = dentryidx then lastEntry else st3.dirBlocks b k }
  let lastBlkNum := st3.rootDirInode.block.getD lastBlk 0
  let st5 := if blkidx ≠ lastBlk then
      { st4 with dirBlocks := fun b k =>
          if b = lastBlkNum ∧ k = lastIdx then zeroEntry else st4.dirBlocks b k }
    else st4
  let st6 := { st5 with inodeBitmap := fun i2 =>
      if i2 = inodeidx then 0 else st5.inodeBitmap i2 }
  let st7 := { st6 with diskInodes := fun b s =>
      if b = inodeidx / INODES_PER_BLK ∧ s = inodeidx then zeroInode
      else st6.diskInodes b s }
  let newRoot := { st7.rootDirInode with size := st7.rootDirInode.size - KTFS_DENSZ }
  { st7 with
    rootDirInode := newRoot
    diskInodes := fun b s =>
      if b = st7.rootInodeNum / INODES_PER_BLK ∧ s = st7.rootInodeNum % INODES_PER_BLK
      then newRoot else st7.diskInodes b s }

/-- `ktfs_delete(name)`: locate the entry (error `-ENOENT` when absent),
close the file if it is open, free its blocks in the bitmap, and update
the directory and inodes; the trailing `ktfs_flush` only drains the
cache, which this model (with immediate writes) renders as the identity. -/
def ktfs_delete (st0 : FsSt) (name : Nat) : Except Nat FsSt :=
  match deleteSearch st0 name with
  | none => .error ENOENT
  | some hit =>
      .ok (deleteSwapPhase (deleteFreePhase (deleteClose st0 hit.2.2) hit.2.2)
        hit.1 hit.2.1 hit.2.2.inode)

/-- Directory-block index of the last directory entry
(`(num_files - 1) / DIR_SIZE` in `ktfs_delete`). -/
def lastBlkOf (st : FsSt) : Nat := (st.rootDirInode.size / KTFS_DENSZ - 1) / DIR_SIZE

/-- In-block index of the last directory entry
(`(num_files - 1) % DIR_SIZE` in `ktfs_delete`). -/
def lastIdxOf (st : FsSt) : Nat := (st.rootDirInode.size / KTFS_DENSZ - 1) % DIR_SIZE

/-- The swap-delete behaviour of claim C7, as stated, at one state and
name: the deleted slot receives the last entry, the last entry's slot is
zeroed (also when both live in the same block), and the root size drops
by 32. -/
def deleteSwapClaim (st : FsSt) (name : Nat) : Prop :=
  ∀ hit st', deleteSearch st name = some hit → ktfs_delete st name = .ok st' →
    let nf := st.rootDirInode.size / KTFS_DENSZ
    let lastBlk := (nf - 1) / DIR_SIZE
    let lastIdx := (nf - 1) % DIR_SIZE
    st'.rootDirInode.size = st.rootDirInode.size - KTFS_DENSZ ∧
    st'.dirBlocks (st.rootDirInode.block.getD lastBlk 0) lastIdx = zeroEntry

/-! ### Concrete states used by counterexamples and witnesses -/

/-- A file system with one bitmap block, nothing allocated, and an empty
root directory. -/
def stF : FsSt :=
  { bitmapBlockCount := 1
    rootInodeNum := 0
    rootDirInode := zeroInode
    openNames := []
    inodeBitmap := fun _ => 0
    bitmap := fun _ _ => 0
    diskInodes := fun _ _ => zeroInode
    ptrBlocks := fun _ _ => 0
    dirBlocks := fun _ _ => zeroEntry }

/-- An open file of size 512 bytes occupying data block 9, inode 2. -/
def fGrown : KtfsFile :=
  { dentry := { name := 1, inode := 2 }
    inode := { size := 512, block := [9, 0, 0, 0], indirect := 0, dindirect := [0, 0] } }

/-- An open file of size 100 bytes occupying data block 9, inode 2. -/
def fSmall : KtfsFile :=
  { dentry := { name := 1, inode := 2 }
    inode := { size := 100, block := [9, 0, 0, 0], indirect := 0, dindirect := [0, 0] } }

/-- A file system whose root directory holds two entries (names 10 and
11, inodes 2 and 3) in the same directory block 5. -/
def stTwo : FsSt :=
  { bitmapBlockCount := 1
    rootInodeNum := 0
    rootDirInode := { size := 64, block := [5, 0, 0, 0], indirect := 0, dindirect := [0, 0] }
    openNames := []
    inodeBitmap := fun _ => 1
    bitmap := fun _ _ => 0
    diskInodes := fun _ _ => zeroInode
    ptrBlocks := fun _ _ => 0
    dirBlocks := fun b k => if b = 5 ∧ k = 0 then { name := 10, inode := 2 }
      else if b = 5 ∧ k = 1 then { name := 11, inode := 3 } else zeroEntry }

/-- A file system whose root directory holds 17 entries: names 100 + k
(inode 2 + k) for k < 16 in block 5, and name 200 (inode 30) in
block 6. -/
def stMany : FsSt :=
  { bitmapBlockCount := 1
    rootInodeNum := 0
    rootDirInode := { size := 544, block := [5, 6, 0, 0], indirect := 0, dindirect := [0, 0] }
    openNames := []
    inodeBitmap := fun _ => 1
    bitmap := fun _ _ => 0
    diskInodes := fun _ _ => zeroInode
    ptrBlocks := fun _ _ => 0
    dirBlocks := fun b k => if b = 5 ∧ k < 16 then { name := 100 + k, inode := 2 + k }
      else if b = 6 ∧ k = 0 then { name := 200, inode := 30 } else zeroEntry }

/-- A sleep list holding a single ordinary alarm whose wake time is
exactly 5. -/
def stTick : TimerSt :=
  { sleepList := [{ ident := 1, interrupter := false, twake := 5 }]
    stcmp := 0
    stie := true
    broadcasts := [] }

/-- A sleep list holding a single ordinary alarm whose wake time 4 has
strictly passed at time 5. -/
def stPast : TimerSt :=
  { sleepList := [{ ident := 1, interrupter := false, twake := 4 }]
    stcmp := 0
    stie := true
    broadcasts := [] }

/-- A sleep list holding only the expired preemption alarm. -/
def stInt : TimerSt :=
  { sleepList := [{ ident := 0, interrupter := true, twake := 4 }]
    stcmp := 0
    stie := true
    broadcasts := [] }

/-- An empty pipe whose writer is still referenced. -/
def pEmpty : PipeSt :=
  { buf := fun _ => 0, headpos := 3, tailpos := 3, dataCnt := 0, writerRef := 1 }

/-- A pipe holding the two bytes 7 and 8. -/
def pTwo : PipeSt :=
  { buf := fun i => if i = 0 then 7 else if i = 1 then 8 else 0
    headpos := 0
    tailpos := 2
    dataCnt := 2
    writerRef := 1 }

/-- A seekable adapter over a 4096-byte endpoint with 512-byte blocks,
positioned at 0. -/
def sAd : SeekSt := { pos := 0, endp := 4096, blksz := 512 }

end KernelModel

namespace KernelModel

/-! ### Helper lemmas -/

/-- A free-chunk list in which every chunk is strictly smaller than the
request has no exact fit. -/
theorem removeExactFit_eq_none (cnt : Nat) (l : List PageChunk)
    (h : ∀ c ∈ l, c.pagecnt < cnt) : removeExactFit cnt l = none := by
  induction l with
  | nil => rfl
  | cons c rest ih =>
      have hc := h c (List.mem_cons_self c rest)
      simp only [removeExactFit, if_neg (by omega : ¬ c.pagecnt = cnt)]
      rw [ih (fun d hd => h d (List.mem_cons_of_mem c hd))]

/-- A free-chunk list in which every chunk is strictly smaller than the
request has no strictly larger chunk either. -/
theorem findMinLarger_eq_none (cnt : Nat) (l : List PageChunk)
    (h : ∀ c ∈ l, c.pagecnt < cnt) : findMinLarger cnt l = none := by
  have key : ∀ (l2 : List PageChunk), (∀ c ∈ l2, c.pagecnt < cnt) →
      List.foldl (fun best c =>
        if cnt < c.pagecnt then
          match best with
          | none => some c
          | some b => if c.pagecnt < b.pagecnt then some c else some b
        else best) none l2 = none := by
    intro l2 h2
    induction l2 with
    | nil => rfl
    | cons c rest ih =>
        have hc := h2 c (List.mem_cons_self c rest)
        simp only [List.foldl_cons, if_neg (by omega : ¬ cnt < c.pagecnt)]
        exact ih (fun d hd => h2 d (List.mem_cons_of_mem c hd))
  exact key l h

/-! ### Claim theorems -/

/-- Counterexample to claim C3 as stated: a capacity-crossing read at
the block-unaligned position 100 on an 8-block, 512-byte-block device
returns the clamped count 3996 but the loop copies only 7 whole blocks
(3584 bytes), so "exactly capacity minus position bytes are transferred"
fails. -/
theorem claim_C3_counterexample : ¬ vioblkClampClaim 8 512 100 5000 := by
  intro h
  exact absurd (h (by norm_num) (by decide)).2 (by decide)

/-- Claim C3 amended: a VirtIO block read-at with position exactly the
device end returns 0; a position strictly past the end returns the
invalid-argument error; a length crossing the device capacity is clamped
and the clamped count capacity-minus-position is returned, but the copy
loop transfers only the whole-block prefix of that count
(`(capacity * blkSize - pos) / blkSize * blkSize` bytes), so at a
block-unaligned position fewer bytes are transferred than returned. -/
theorem claim_C3_vioblk_readat_bounds (capacity blkSize : Nat) (bufNull : Bool)
    (status : Nat) (pos : Nat) (bufsz : Int) :
    vioblk_readat capacity blkSize bufNull status (capacity * blkSize) bufsz = 0 ∧
    (capacity * blkSize < pos → bufNull = false →
      vioblk_readat capacity blkSize bufNull status pos bufsz = -(EINVAL : Int)) ∧
    (pos < capacity * blkSize → capacity * blkSize < pos + bufsz.toNat →
      bufNull = false → status = 0 →
      vioblk_readat capacity blkSize bufNull status pos bufsz =
        ((capacity * blkSize - pos : Nat) : Int) ∧
      vioblk_read_copied capacity blkSize pos bufsz =
        (capacity * blkSize - pos) / blkSize * blkSize) := by
  refine ⟨?_, ?_, ?_⟩
  · simp [vioblk_readat]
  · intro hpos hb
    subst hb
    simp only [vioblk_readat]
    rw [if_neg (by omega : ¬ pos = capacity * blkSize), if_neg (by simp), if_pos hpos]
  · intro hpos hcross hb hstat
    subst hb
    subst hstat
    have hpos2 : 0 < bufsz := by
      rcases Int.lt_or_le 0 bufsz with h | h
      · exact h
      · exfalso
        have : bufsz.toNat = 0 := Int.toNat_of_nonpos h
        omega
    constructor
    · simp only [vioblk_readat]
      rw [if_neg (by omega : ¬ pos = capacity * blkSize), if_neg (by simp),
        if_neg (by omega : ¬ capacity * blkSize < pos),
        if_neg (by omega : ¬ bufsz < 0), if_neg (by omega : ¬ bufsz = 0)]
      simp only [if_pos hcross]
      norm_num
    · simp only [vioblk_read_copied, if_pos hcross]

/-- Witness for claim C3 at a device of 8 blocks of 512 bytes: reading
at 4096 returns 0, at 4097 returns the error, and 5000 bytes from the
unaligned position 100 returns the clamped 3996 while copying only
3584 bytes. -/
theorem claim_C3_witness :
    vioblk_readat 8 512 false 0 4096 100 = 0 ∧
    vioblk_readat 8 512 false 0 4097 100 = -(EINVAL : Int) ∧
    vioblk_readat 8 512 false 0 100 5000 = ((3996 : Nat) : Int) ∧
    vioblk_read_copied 8 512 100 5000 = 3584 :=
  ⟨(claim_C3_vioblk_readat_bounds 8 512 false 0 4097 100).1,
    (claim_C3_vioblk_readat_bounds 8 512 false 0 4097 100).2.1 (by norm_num) rfl,
    ((claim_C3_vioblk_readat_bounds 8 512 false 0 100 5000).2.2
      (by norm_num) (by decide) rfl rfl).1,
    ((claim_C3_vioblk_readat_bounds 8 512 false 0 100 5000).2.2
      (by norm_num) (by decide) rfl rfl).2⟩

/-- Counterexample to claim C4 as stated: an in-range fault whose
address already carries a valid leaf PTE (as a read-only user page from
the program loader does) makes the handler signal retry, yet nothing is
installed — `map_page` returns success without writing the leaf — so
"retry iff allocated and installed with read/write/user" fails. -/
theorem claim_C4_counterexample : ¬ pageFaultClaim 4096 8192 4096 (some 77) true true := by
  intro h
  have h1 : (handle_umode_page_fault 4096 8192 4096 (some 77) true true).1 = 1 := rfl
  obtain ⟨pp, hpp, hm⟩ := (h.mp h1).2
  have h2 : (handle_umode_page_fault 4096 8192 4096 (some 77) true true).2 = none := rfl
  rw [h2] at hm
  exact Option.noConfusion hm

/-- Claim C4 amended: the user page-fault handler signals retry (1)
exactly when the address is in the user range, a frame was allocated,
and `map_page` succeeds — which it does for every well-formed address;
when no valid leaf PTE existed at the address, the fresh frame is
installed with read/write/user permissions, but when a valid leaf was
already present `map_page` reports success without installing anything
and the handler retries leaving the existing mapping unchanged; outside
the range, on allocation failure, or on a `map_page` failure it signals
fatal (0) with no mapping installed. -/
theorem claim_C4_page_fault (us ue vma : Nat) (alloc : Option Nat) (wf leafValid : Bool) :
    ((handle_umode_page_fault us ue vma alloc wf leafValid).1 = 1 ↔
      (us ≤ vma ∧ vma < ue) ∧ alloc.isSome ∧ wf = true) ∧
    (¬ (us ≤ vma ∧ vma < ue) ∨ alloc = none ∨ wf = false →
      handle_umode_page_fault us ue vma alloc wf leafValid = (0, none)) ∧
    (∀ pp, (handle_umode_page_fault us ue vma alloc wf leafValid).1 = 1 →
      alloc = some pp → leafValid = false →
      (handle_umode_page_fault us ue vma alloc wf leafValid).2 =
        some { vma := vma, pp := pp, flags := PTE_R + PTE_W + PTE_U }) ∧
    ((handle_umode_page_fault us ue vma alloc wf leafValid).1 = 1 → leafValid = true →
      (handle_umode_page_fault us ue vma alloc wf leafValid).2 = none) := by
  by_cases hr : us ≤ vma ∧ vma < ue
  · cases alloc with
    | none => simp [handle_umode_page_fault, hr]
    | some pp =>
        cases wf <;> cases leafValid <;>
          simp [handle_umode_page_fault, map_page, hr]
  · simp [handle_umode_page_fault, hr]

/-- Witness for claim C4 in a user range `[4096, 8192)`: a fault at 4096
with a successful allocation and no pre-existing leaf retries with the
read/write/user mapping installed; the same fault over an existing valid
leaf retries with nothing installed; a fault at 0 is fatal. -/
theorem claim_C4_witness :
    (handle_umode_page_fault 4096 8192 4096 (some 77) true false).1 = 1 ∧
    (handle_umode_page_fault 4096 8192 4096 (some 77) true false).2 =
      some { vma := 4096, pp := 77, flags := PTE_R + PTE_W + PTE_U } ∧
    (handle_umode_page_fault 4096 8192 4096 (some 77) true true).1 = 1 ∧
    (handle_umode_page_fault 4096 8192 4096 (some 77) true true).2 = none ∧
    handle_umode_page_fault 4096 8192 0 (some 77) true false = (0, none) :=
  ⟨(claim_C4_page_fault 4096 8192 4096 (some 77) true false).1.2
      ⟨⟨by norm_num, by norm_num⟩, rfl, rfl⟩,
    (claim_C4_page_fault 4096 8192 4096 (some 77) true false).2.2.1 77
      ((claim_C4_page_fault 4096 8192 4096 (some 77) true false).1.2
        ⟨⟨by norm_num, by norm_num⟩, rfl, rfl⟩) rfl rfl,
    (claim_C4_page_fault 4096 8192 4096 (some 77) true true).1.2
      ⟨⟨by norm_num, by norm_num⟩, rfl, rfl⟩,
    (claim_C4_page_fault 4096 8192 4096 (some 77) true true).2.2.2
      ((claim_C4_page_fault 4096 8192 4096 (some 77) true true).1.2
        ⟨⟨by norm_num, by norm_num⟩, rfl, rfl⟩) rfl,
    (claim_C4_page_fault 4096 8192 0 (some 77) true false).2.1
      (Or.inl (by norm_num))⟩

/-- Claim C5 (the behaviour the claim requires is absent): when no free
chunk can accommodate the request, `alloc_phys_pages` does not return
the NULL sentinel — it falls through both scans with `target == NULL`
and dereferences it, modelled as `crash`. -/
theorem claim_C5_alloc_exhaustion_crash (cnt : Nat) (l : List PageChunk)
    (h : ∀ c ∈ l, c.pagecnt < cnt) : alloc_phys_pages cnt l = .crash := by
  unfold alloc_phys_pages
  rw [removeExactFit_eq_none cnt l h, findMinLarger_eq_none cnt l h]

/-- Witness for claim C5: requesting 2 pages from a free list holding a
single 1-page chunk reaches the NULL dereference. -/
theorem claim_C5_witness :
    (∀ c ∈ [({ addr := 4096, pagecnt := 1 } : PageChunk)], c.pagecnt < 2) ∧
    alloc_phys_pages 2 [{ addr := 4096, pagecnt := 1 }] = .crash :=
  ⟨by decide, claim_C5_alloc_exhaustion_crash 2 _ (by decide)⟩

/-- Claim C10: when an alarm's advanced wake time (previous wake time
plus the tick count, saturating at the 64-bit maximum) is strictly
earlier than the current time, `alarm_sleep` returns at once: the timer
state (sleep list, compare register, interrupt enable) is untouched and
the caller does not wait. -/
theorem claim_C10_alarm_sleep_past (al : Alarm) (tcnt now : Nat) (st : TimerSt)
    (hmax : al.twake ≤ UINT64MAX)
    (hpast : min (al.twake + tcnt) UINT64MAX < now) :
    alarm_sleep al tcnt now st =
      ({ al with twake := min (al.twake + tcnt) UINT64MAX }, st, false) := by
  have hadv : advanceTwake al.twake tcnt = min (al.twake + tcnt) UINT64MAX := by
    unfold advanceTwake
    split <;> omega
  unfold alarm_sleep
  rw [hadv]
  rw [if_pos (by simpa using hpast)]

/-- Witness for claim C10: an alarm whose advance lands at 12 while the
clock reads 20 returns with the state unchanged. -/
theorem claim_C10_witness :
    alarm_sleep { ident := 1, interrupter := false, twake := 10 } 2 20 stTick =
      ({ ident := 1, interrupter := false, twake := 12 }, stTick, false) := by
  have h := claim_C10_alarm_sleep_past { ident := 1, interrupter := false, twake := 10 }
    2 20 stTick (by norm_num [UINT64MAX]) (by norm_num [UINT64MAX])
  simpa [show min 12 UINT64MAX = 12 by norm_num [UINT64MAX]] using h

/-- Counterexample to claim C2 as stated: after `create_seekable_io`
takes a reference on the backing endpoint (one init-with-1 plus one
addref) and the adapter is closed, the backing endpoint's count is 0
although the ledger init + addref − close predicts 1 — `seekio_close`
decrements the count once raw and once through `ioclose`. -/
theorem claim_C2_counterexample :
    ¬ epLedgerClaim [EpOp.addrefOp, EpOp.seekCloseBk] := by
  intro h
  have hrun : epRun ioinit1St [EpOp.addrefOp, EpOp.seekCloseBk] =
      some { refcnt := 0, closeCalls := 1 } := by decide
  exact absurd (h _ hrun) (by decide)

/-- Claim C2 amended: for an endpoint manipulated only through the io
API (init-with-1, addref, ioclose), the outstanding count equals
init + addrefs − closes and the operation table's close is invoked
exactly at the decrements to zero and never otherwise; closing a
seekable adapter, however, removes two references from its backing
endpoint (one raw decrement plus one `ioclose`) and invokes the backing
close exactly when the count stood at 2. -/
theorem claim_C2_refcount_ledger :
    (∀ (t : List EpOp) (s0 s : EpState), EpOp.seekCloseBk ∉ t →
      epRun s0 t = some s →
        s.refcnt + countClose t = s0.refcnt + countAddref t ∧
        s.closeCalls = s0.closeCalls + zeroHits s0.refcnt t) ∧
    (∀ s : EpState, 2 ≤ s.refcnt → s.refcnt < 2 ^ 64 →
      seekCloseBkSt s = some
        { refcnt := s.refcnt - 2
          closeCalls := s.closeCalls + (if s.refcnt = 2 then 1 else 0) }) := by
  constructor
  · intro t
    induction t with
    | nil =>
        intro s0 s _ hrun
        have hss : s0 = s := Option.some.inj hrun
        subst hss
        simp [countClose, countAddref, zeroHits]
    | cons op rest ih =>
        intro s0 s hno hrun
        have hno2 : EpOp.seekCloseBk ∉ rest := fun hm => hno (List.mem_cons_of_mem op hm)
        cases op with
        | addrefOp =>
            have hrun2 : epRun (ioaddrefSt s0) rest = some s := hrun
            obtain ⟨h1, h2⟩ := ih (ioaddrefSt s0) s hno2 hrun2
            have e1 : countClose (EpOp.addrefOp :: rest) = countClose rest := by
              simp [countClose, List.countP_cons]
            have e2 : countAddref (EpOp.addrefOp :: rest) = countAddref rest + 1 := by
              simp [countAddref, List.countP_cons]
            have e3 : zeroHits s0.refcnt (EpOp.addrefOp :: rest) =
                zeroHits (s0.refcnt + 1) rest := rfl
            simp only [ioaddrefSt] at h1 h2
            refine ⟨?_, ?_⟩
            · rw [e1, e2]
              omega
            · rw [e3, h2]
        | iocloseOp =>
            have hrun2 : (match iocloseSt s0 with
                | none => none
                | some s1 => epRun s1 rest) = some s := hrun
            simp only [iocloseSt] at hrun2
            by_cases h0 : s0.refcnt = 0
            · rw [if_pos h0] at hrun2
              cases hrun2
            · rw [if_neg h0] at hrun2
              obtain ⟨h1, h2⟩ := ih _ s hno2 hrun2
              have e1 : countClose (EpOp.iocloseOp :: rest) = countClose rest + 1 := by
                simp [countClose, List.countP_cons]
              have e2 : countAddref (EpOp.iocloseOp :: rest) = countAddref rest := by
                simp [countAddref, List.countP_cons]
              have e3 : zeroHits s0.refcnt (EpOp.iocloseOp :: rest) =
                  (if s0.refcnt = 1 then 1 else 0) + zeroHits (s0.refcnt - 1) rest := rfl
              simp only at h1 h2
              refine ⟨?_, ?_⟩
              · rw [e1, e2]
                omega
              · rw [e3, h2]
                have e4 : (if s0.refcnt - 1 = 0 then 1 else 0) =
                    (if s0.refcnt = 1 then 1 else 0) := by
                  by_cases hone : s0.refcnt = 1
                  · rw [if_pos hone, if_pos (by omega)]
                  · rw [if_neg hone, if_neg (by omega)]
                rw [e4]
                omega
        | seekCloseBk =>
            exact absurd (List.mem_cons_self _ _) hno
  · intro s h2 hlt
    have hmod : (s.refcnt + UINT64MAX) % 2 ^ 64 = s.refcnt - 1 := by
      simp only [UINT64MAX]
      omega
    simp only [seekCloseBkSt, iocloseSt, hmod]
    rw [if_neg (by omega : ¬ s.refcnt - 1 = 0)]
    have e5 : (if s.refcnt - 1 - 1 = 0 then 1 else 0) =
        (if s.refcnt = 2 then 1 else 0) := by
      by_cases htwo : s.refcnt = 2
      · rw [if_pos htwo, if_pos (by omega)]
      · rw [if_neg htwo, if_neg (by omega)]
    rw [e5]
    have e6 : s.refcnt - 1 - 1 = s.refcnt - 2 := by omega
    rw [e6]

/-- Witness for claim C2: a trace init, addref, close, close ends with
count 0 and a single close invocation at the final decrement to zero,
and a seekable-adapter close from backing count 2 yields count 0 with
the close invoked once. -/
theorem claim_C2_witness :
    (({ refcnt := 0, closeCalls := 1 } : EpState).refcnt +
        countClose [EpOp.addrefOp, EpOp.iocloseOp, EpOp.iocloseOp] =
      ({ refcnt := 1, closeCalls := 0 } : EpState).refcnt +
        countAddref [EpOp.addrefOp, EpOp.iocloseOp, EpOp.iocloseOp] ∧
      ({ refcnt := 0, closeCalls := 1 } : EpState).closeCalls =
        ({ refcnt := 1, closeCalls := 0 } : EpState).closeCalls +
          zeroHits 1 [EpOp.addrefOp, EpOp.iocloseOp, EpOp.iocloseOp]) ∧
    seekCloseBkSt { refcnt := 2, closeCalls := 0 } =
      some { refcnt := 0, closeCalls := 0 + (if (2 : Nat) = 2 then 1 else 0) } :=
  ⟨claim_C2_refcount_ledger.1 [EpOp.addrefOp, EpOp.iocloseOp, EpOp.iocloseOp]
      { refcnt := 1, closeCalls := 0 } { refcnt := 0, closeCalls := 1 }
      (by decide) (by decide),
    claim_C2_refcount_ledger.2 { refcnt := 2, closeCalls := 0 } (by norm_num) (by norm_num)⟩

/-- Counterexample to claim C8 as stated: a streaming read of 700 bytes
(not a multiple of the 512-byte block size) on the seekable adapter does
not fail — it is truncated to 512 bytes and passed through to the
backing endpoint. -/
theorem claim_C8_counterexample : ¬ seekReqClaim sAd 700 := by
  intro h
  rcases h.1 (by decide) with ⟨e, he⟩
  have hv : seekio_read sAd 700 = .pass 0 512 := by decide
  rw [hv] at he
  exact SeekRes.noConfusion he

/-- Claim C8 amended: a streaming request smaller than one block (for
reads, after clamping to the end) fails with invalid-argument; a request
of at least one block is truncated down to a multiple of the block size
and passed through to the backing positional endpoint — in particular a
positive multiple of the block size is passed through with its full
size; a write reaching past the cached end first issues a successful
set-end and then passes through. -/
theorem claim_C8_stream_block_rule (s : SeekSt) (bufsz len r : Int)
    (hpe : s.pos ≤ s.endp) (hend : s.endp < 2 ^ 64) (hblk : 0 < s.blksz) :
    (0 < bufsz → bufsz.toNat ≤ s.endp - s.pos → bufsz.toNat < s.blksz →
      seekio_read s bufsz = .errRes (-(EINVAL : Int))) ∧
    (s.blksz ≤ bufsz.toNat → bufsz.toNat ≤ s.endp - s.pos →
      seekio_read s bufsz = .pass s.pos (bufsz.toNat - bufsz.toNat % s.blksz)) ∧
    (s.blksz ≤ bufsz.toNat → bufsz.toNat ≤ s.endp - s.pos →
      bufsz.toNat % s.blksz = 0 → seekio_read s bufsz = .pass s.pos bufsz.toNat) ∧
    (0 < len → len.toNat < s.blksz →
      seekio_write s r len = .errRes (-(EINVAL : Int))) ∧
    (s.blksz ≤ len.toNat → len.toNat - len.toNat % s.blksz ≤ s.endp - s.pos →
      seekio_write s r len = .pass s.pos (len.toNat - len.toNat % s.blksz)) ∧
    (s.blksz ≤ len.toNat → s.endp - s.pos < len.toNat - len.toNat % s.blksz →
      len.toNat - len.toNat % s.blksz ≤ UINT64MAX - s.pos → r = 0 →
      seekio_write s r len =
        .extendPass (s.pos + (len.toNat - len.toNat % s.blksz)) s.pos
          (len.toNat - len.toNat % s.blksz)) := by
  have hsub : u64sub s.endp s.pos = s.endp - s.pos := by
    simp only [u64sub]
    omega
  have hread : s.blksz ≤ bufsz.toNat → bufsz.toNat ≤ s.endp - s.pos →
      seekio_read s bufsz = .pass s.pos (bufsz.toNat - bufsz.toNat % s.blksz) := by
    intro hge hle
    have hb : 0 < bufsz := by
      by_contra h0
      have : bufsz.toNat = 0 := by omega
      omega
    simp only [seekio_read, hsub]
    rw [if_neg (by omega : ¬ bufsz < 0),
      if_neg (by omega : ¬ s.endp - s.pos < bufsz.toNat)]
    rw [if_neg (by omega : ¬ bufsz.toNat = 0),
      if_neg (by omega : ¬ bufsz.toNat < s.blksz)]
  refine ⟨?_, ?_, ?_, ?_, ?_, ?_⟩
  · intro hb hle hsmall
    simp only [seekio_read, hsub]
    rw [if_neg (by omega : ¬ bufsz < 0),
      if_neg (by omega : ¬ s.endp - s.pos < bufsz.toNat)]
    rw [if_neg (by omega : ¬ bufsz.toNat = 0), if_pos hsmall]
  · exact hread
  · intro hge hle hz
    rw [hread hge hle, hz]
    norm_num
  · intro hl hsmall
    simp only [seekio_write]
    rw [if_neg (by omega : ¬ len < 0), if_neg (by omega : ¬ len = 0), if_pos hsmall]
  · intro hge hle
    simp only [seekio_write, hsub]
    rw [if_neg (by omega : ¬ len < 0), if_neg (by omega : ¬ len = 0),
      if_neg (by omega : ¬ len.toNat < s.blksz),
      if_neg (by omega : ¬ s.endp - s.pos < len.toNat - len.toNat % s.blksz)]
  · intro hge hover hfit hr
    subst hr
    have hcond : ¬ (UINT64MAX - s.pos % 2 ^ 64 < len.toNat - len.toNat % s.blksz) := by
      simp only [UINT64MAX] at *
      omega
    simp only [seekio_write, hsub]
    rw [if_neg (by omega : ¬ len < 0), if_neg (by omega : ¬ len = 0),
      if_neg (by omega : ¬ len.toNat < s.blksz), if_pos hover, if_neg hcond]
    norm_num

/-- Witness for claim C8 on a 4096-byte endpoint with 512-byte blocks: a
100-byte read fails, a 700-byte read passes through truncated to 512, a
1024-byte read passes through whole, a 100-byte write fails, a 512-byte
write at the end extends then passes through. -/
theorem claim_C8_witness :
    seekio_read sAd 100 = .errRes (-(EINVAL : Int)) ∧
    seekio_read sAd 700 = .pass 0 512 ∧
    seekio_read sAd 1024 = .pass 0 1024 ∧
    seekio_write sAd 0 100 = .errRes (-(EINVAL : Int)) ∧
    seekio_write { sAd with pos := 4096 } 0 512 = .extendPass 4608 4096 512 := by
  refine ⟨?_, ?_, ?_, ?_, ?_⟩
  · exact (claim_C8_stream_block_rule sAd 100 100 0 (by norm_num [sAd])
      (by norm_num [sAd]) (by norm_num [sAd])).1 (by norm_num) (by decide) (by decide)
  · have h := (claim_C8_stream_block_rule sAd 700 700 0 (by norm_num [sAd])
      (by norm_num [sAd]) (by norm_num [sAd])).2.1 (by decide) (by decide)
    simpa [sAd] using h
  · have h := (claim_C8_stream_block_rule sAd 1024 1024 0 (by norm_num [sAd])
      (by norm_num [sAd]) (by norm_num [sAd])).2.2.1 (by decide) (by decide) (by decide)
    simpa [sAd] using h
  · exact (claim_C8_stream_block_rule sAd 100 100 0 (by norm_num [sAd])
      (by norm_num [sAd]) (by norm_num [sAd])).2.2.2.1 (by norm_num) (by decide)
  · have h := (claim_C8_stream_block_rule { sAd with pos := 4096 } 512 512 0
      (by norm_num [sAd]) (by norm_num [sAd]) (by norm_num [sAd])).2.2.2.2.2
      (by decide) (by decide) (by decide) rfl
    simpa [sAd] using h

/-- Counterexample to claim C9 as stated: a read of 0 bytes from an
empty pipe whose writer is still referenced returns 0 immediately
instead of waiting on the not-empty condition. -/
theorem claim_C9_counterexample : ¬ pipeReadClaim pEmpty 0 := by
  intro h
  have h1 := h.1 ⟨rfl, by norm_num [pEmpty]⟩
  have h2 : pipe_read pEmpty 0 = .ret0 := rfl
  rw [h2] at h1
  exact PipeReadRes.noConfusion h1

/-- How many bytes the `pipe_read` drain loop delivers: the requested
count or the ring occupancy, whichever is smaller. -/
theorem pipeDrain_length (fuel : Nat) : ∀ p : PipeSt, p.headpos ≤ p.tailpos →
    (pipeDrain p fuel).1.length = min fuel (p.tailpos - p.headpos) := by
  induction fuel with
  | zero =>
      intro p h
      simp [pipeDrain]
  | succ n ih =>
      intro p h
      by_cases he : rbuf_empty p = true
      · have hc : p.headpos = p.tailpos := by
          simpa [rbuf_empty] using he
        simp [pipeDrain, he, hc]
      · have hlt : p.headpos < p.tailpos := by
          have : ¬ p.headpos = p.tailpos := by
            simpa [rbuf_empty] using he
          omega
        simp only [pipeDrain, if_neg he, rbuf_getc]
        have hrec := ih { p with headpos := p.headpos + 1, dataCnt := p.dataCnt - 1 }
          (by simpa using hlt)
        simp only [List.length_cons]
        simp only at hrec
        rw [hrec]
        omega

/-- Claim C9 amended: for every pipe read of positive size, an empty
ring with a live writer waits on not-empty, an empty ring with a dead
writer returns 0 (end of file), and a non-empty ring is drained of the
requested count or the available bytes, whichever is smaller, with the
not-full condition broadcast. -/
theorem claim_C9_pipe_read (p : PipeSt) (bufsz : Int) (hpos : 0 < bufsz)
    (hht : p.headpos ≤ p.tailpos) :
    (rbuf_empty p = true → 0 < p.writerRef → pipe_read p bufsz = .waits) ∧
    (rbuf_empty p = true → p.writerRef = 0 → pipe_read p bufsz = .eofRes) ∧
    (¬ rbuf_empty p = true →
      ∃ p2, pipe_read p bufsz =
        .drained (pipeDrain p bufsz.toNat).1
          ((pipeDrain p bufsz.toNat).1.length : Int) p2 true ∧
        (pipeDrain p bufsz.toNat).1.length =
          min bufsz.toNat (p.tailpos - p.headpos)) := by
  refine ⟨?_, ?_, ?_⟩
  · intro he hw
    simp only [pipe_read]
    rw [if_neg (by omega : ¬ bufsz = 0), if_neg (by omega : ¬ bufsz < 0),
      if_pos ⟨he, hw⟩]
  · intro he hw
    simp only [pipe_read]
    rw [if_neg (by omega : ¬ bufsz = 0), if_neg (by omega : ¬ bufsz < 0),
      if_neg (by simp [hw] : ¬ (rbuf_empty p = true ∧ 0 < p.writerRef)),
      if_pos ⟨he, hw⟩]
  · intro he
    refine ⟨(pipeDrain p bufsz.toNat).2, ?_, pipeDrain_length bufsz.toNat p hht⟩
    simp only [pipe_read]
    rw [if_neg (by omega : ¬ bufsz = 0), if_neg (by omega : ¬ bufsz < 0),
      if_neg (by simp [he] : ¬ (rbuf_empty p = true ∧ 0 < p.writerRef)),
      if_neg (by simp [he] : ¬ (rbuf_empty p = true ∧ p.writerRef = 0))]

/-- Witness for claim C9: an empty pipe with a live writer waits on a
5-byte read; with a dead writer it reports end of file; a pipe holding
two bytes delivers both on a 5-byte read. -/
theorem claim_C9_witness :
    pipe_read pEmpty 5 = .waits ∧
    pipe_read { pEmpty with writerRef := 0 } 5 = .eofRes ∧
    (∃ p2, pipe_read pTwo 5 =
        .drained (pipeDrain pTwo 5).1 ((pipeDrain pTwo 5).1.length : Int) p2 true ∧
      (pipeDrain pTwo 5).1.length = min 5 (pTwo.tailpos - pTwo.headpos)) :=
  ⟨(claim_C9_pipe_read pEmpty 5 (by norm_num) (by norm_num [pEmpty])).1
      rfl (by norm_num [pEmpty]),
    (claim_C9_pipe_read { pEmpty with writerRef := 0 } 5 (by norm_num)
      (by norm_num [pEmpty])).2.1 rfl rfl,
    (claim_C9_pipe_read pTwo 5 (by norm_num) (by norm_num [pTwo])).2.2
      (by norm_num [rbuf_empty, pTwo])⟩

/-! ### Timer ISR lemmas -/

/-- Unfolding `timerLoop` on an empty sleep list. -/
theorem timerLoop_nil (tfreq now : Nat) (st : TimerSt) (h : st.sleepList = []) :
    timerLoop tfreq now st = st := by
  rw [timerLoop]
  split
  · rfl
  · rename_i a rest hl
    rw [h] at hl
    cases hl

/-- Unfolding `timerLoop` when the head's wake time has not strictly
passed: the loop exits. -/
theorem timerLoop_stay (tfreq now : Nat) (st : TimerSt) (a : Alarm) (rest : List Alarm)
    (h : st.sleepList = a :: rest) (hge : ¬ a.twake < now) :
    timerLoop tfreq now st = st := by
  rw [timerLoop]
  split
  · rfl
  · rename_i a2 rest2 hl
    rw [h] at hl
    injection hl with h1 h2
    subst h1
    subst h2
    rw [dif_neg hge]

/-- Unfolding `timerLoop` on an expired ordinary alarm: it is removed
and its condition broadcast. -/
theorem timerLoop_bcast (tfreq now : Nat) (st : TimerSt) (a : Alarm) (rest : List Alarm)
    (h : st.sleepList = a :: rest) (hlt : a.twake < now) (hni : a.interrupter = false) :
    timerLoop tfreq now st =
      timerLoop tfreq now
        { st with sleepList := rest, broadcasts := st.broadcasts ++ [a.ident] } := by
  rw [timerLoop]
  split
  · rename_i hl
    rw [h] at hl
    cases hl
  · rename_i a2 rest2 hl
    rw [h] at hl
    injection hl with h1 h2
    subst h1
    subst h2
    rw [dif_pos hlt, if_neg (by simp [hni])]

/-- Unfolding `timerLoop` on the expired preemption alarm: its wake time
is reset to now and it is re-armed 20 ms out through `alarm_sleep`. -/
theorem timerLoop_rearm (tfreq now : Nat) (st : TimerSt) (a : Alarm) (rest : List Alarm)
    (h : st.sleepList = a :: rest) (hlt : a.twake < now) (hni : a.interrupter = true) :
    timerLoop tfreq now st =
      timerLoop tfreq now
        (alarm_sleep { a with twake := now } (ticks20ms tfreq) now
          { st with sleepList := rest }).2.1 := by
  rw [timerLoop]
  split
  · rename_i hl
    rw [h] at hl
    cases hl
  · rename_i a2 rest2 hl
    rw [h] at hl
    injection hl with h1 h2
    subst h1
    subst h2
    rw [dif_pos hlt, if_pos hni]

/-- Membership in the result of the insertion walk. -/
theorem mem_insertWalk (x al : Alarm) (l : List Alarm) :
    x ∈ insertWalk al l ↔ x = al ∨ x ∈ l := by
  induction l with
  | nil => simp [insertWalk]
  | cons c t ih =>
      by_cases h : c.twake < al.twake
      · simp only [insertWalk, if_pos h, List.mem_cons, ih]
        try tauto
      · simp only [insertWalk, if_neg h, List.mem_cons]
        try tauto

/-- Membership in the result of the sorted insertion. -/
theorem mem_sleepInsert (x al : Alarm) (l : List Alarm) :
    x ∈ sleepInsert al l ↔ x = al ∨ x ∈ l := by
  cases l with
  | nil => simp [sleepInsert]
  | cons h t =>
      by_cases hc : al.twake < h.twake
      · simp only [sleepInsert, if_pos hc, List.mem_cons]
        try tauto
      · simp only [sleepInsert, if_neg hc, List.mem_cons, mem_insertWalk]
        try tauto

/-- Counting elements of the insertion walk result. -/
theorem countP_insertWalk (p : Alarm → Bool) (al : Alarm) (l : List Alarm) :
    (insertWalk al l).countP p = l.countP p + (if p al then 1 else 0) := by
  induction l with
  | nil => simp [insertWalk, List.countP_cons]
  | cons c t ih =>
      by_cases h : c.twake < al.twake
      · simp only [insertWalk, if_pos h, List.countP_cons, ih]
        try omega
      · simp only [insertWalk, if_neg h, List.countP_cons]
        try omega

/-- Counting elements of the sorted insertion result. -/
theorem countP_sleepInsert (p : Alarm → Bool) (al : Alarm) (l : List Alarm) :
    (sleepInsert al l).countP p = l.countP p + (if p al then 1 else 0) := by
  cases l with
  | nil => simp [sleepInsert, List.countP_cons]
  | cons h t =>
      by_cases hc : al.twake < h.twake
      · simp only [sleepInsert, if_pos hc, List.countP_cons]
        try omega
      · simp only [sleepInsert, if_neg hc, List.countP_cons, countP_insertWalk]
        try omega

/-- Wake-time sortedness of the sleep list. -/
def SortedTw (l : List Alarm) : Prop :=
  l.Pairwise (fun x y => x.twake ≤ y.twake)

/-- The insertion walk preserves sortedness when every skipped element
does not exceed the elements after it. -/
theorem sortedTw_insertWalk (al : Alarm) (l : List Alarm) (h : SortedTw l) :
    SortedTw (insertWalk al l) := by
  induction l with
  | nil => simp [insertWalk, SortedTw]
  | cons c t ih =>
      rw [SortedTw, List.pairwise_cons] at h
      obtain ⟨hc, ht⟩ := h
      by_cases hlt : c.twake < al.twake
      · rw [insertWalk, if_pos hlt, SortedTw, List.pairwise_cons]
        refine ⟨?_, ih ht⟩
        intro y hy
        rcases (mem_insertWalk y al t).mp hy with hy1 | hy2
        · subst hy1
          omega
        · exact hc y hy2
      · rw [insertWalk, if_neg hlt, SortedTw, List.pairwise_cons]
        refine ⟨?_, ?_⟩
        · intro y hy
          rcases List.mem_cons.mp hy with hy1 | hy2
          · subst hy1
            omega
          · have := hc y hy2
            omega
        · rw [List.pairwise_cons]
          exact ⟨hc, ht⟩

/-- The sorted insertion preserves sortedness. -/
theorem sortedTw_sleepInsert (al : Alarm) (l : List Alarm) (h : SortedTw l) :
    SortedTw (sleepInsert al l) := by
  cases l with
  | nil => simp [sleepInsert, SortedTw]
  | cons c t =>
      rw [SortedTw, List.pairwise_cons] at h
      obtain ⟨hc, ht⟩ := h
      by_cases hlt : al.twake < c.twake
      · rw [sleepInsert, if_pos hlt, SortedTw, List.pairwise_cons]
        refine ⟨?_, ?_⟩
        · intro y hy
          rcases List.mem_cons.mp hy with hy1 | hy2
          · subst hy1
            omega
          · have := hc y hy2
            omega
        · rw [List.pairwise_cons]
          exact ⟨hc, ht⟩
      · rw [sleepInsert, if_neg hlt, SortedTw, List.pairwise_cons]
        refine ⟨?_, sortedTw_insertWalk al t ht⟩
        intro y hy
        rcases (mem_insertWalk y al t).mp hy with hy1 | hy2
        · subst hy1
          omega
        · exact hc y hy2

/-- `alarm_sleep` never touches the broadcast log. -/
theorem alarm_sleep_broadcasts (al : Alarm) (tcnt now : Nat) (st : TimerSt) :
    (alarm_sleep al tcnt now st).2.1.broadcasts = st.broadcasts := by
  simp only [alarm_sleep]
  split <;> rfl

/-- Every alarm in the list after `alarm_sleep` is the (advanced) new
alarm or was already present. -/
theorem alarm_sleep_mem (al : Alarm) (tcnt now : Nat) (st : TimerSt) (x : Alarm)
    (h : x ∈ (alarm_sleep al tcnt now st).2.1.sleepList) :
    x = { al with twake := advanceTwake al.twake tcnt } ∨ x ∈ st.sleepList := by
  revert h
  simp only [alarm_sleep]
  split
  · intro h
    exact Or.inr h
  · intro h
    simpa [mem_sleepInsert] using h

/-- An alarm already in the list survives `alarm_sleep`. -/
theorem alarm_sleep_mem_of_mem (al : Alarm) (tcnt now : Nat) (st : TimerSt) (x : Alarm)
    (h : x ∈ st.sleepList) : x ∈ (alarm_sleep al tcnt now st).2.1.sleepList := by
  simp only [alarm_sleep]
  split
  · exact h
  · simp only [mem_sleepInsert]
    exact Or.inr h

/-- The alarm inserted by `alarm_sleep` is never in the past. -/
theorem alarm_sleep_new_not_expired (al : Alarm) (tcnt now : Nat) (st : TimerSt) (x : Alarm)
    (h : x ∈ (alarm_sleep al tcnt now st).2.1.sleepList) (hx : x ∉ st.sleepList) :
    ¬ x.twake < now := by
  revert h
  simp only [alarm_sleep]
  split
  · intro h
    exact absurd h hx
  · rename_i hge
    intro h
    rcases (mem_sleepInsert x _ _).mp h with h1 | h2
    · subst h1
      exact hge
    · exact absurd h2 hx

/-- `alarm_sleep` preserves sortedness of the sleep list. -/
theorem alarm_sleep_sorted (al : Alarm) (tcnt now : Nat) (st : TimerSt)
    (h : SortedTw st.sleepList) : SortedTw (alarm_sleep al tcnt now st).2.1.sleepList := by
  simp only [alarm_sleep]
  split
  · exact h
  · exact sortedTw_sleepInsert _ _ h

/-- `alarm_sleep` does not increase the number of expired alarms. -/
theorem alarm_sleep_expired (al : Alarm) (tcnt now : Nat) (st : TimerSt) :
    expiredCount now (alarm_sleep al tcnt now st).2.1.sleepList ≤
      expiredCount now st.sleepList := by
  simp only [alarm_sleep]
  split
  · exact le_refl _
  · rename_i hge
    simp only [expiredCount, countP_sleepInsert]
    rw [if_neg (by simpa using hge)]
    omega

/-- Case split on a list as a plain equation, without abstracting the
goal. -/
theorem listCasesEq (l : List Alarm) : l = [] ∨ ∃ a rest, l = a :: rest := by
  cases l with
  | nil => exact Or.inl rfl
  | cons a rest => exact Or.inr ⟨a, rest, rfl⟩

/-- Invariants of the timer ISR wake loop, by strong induction on the
number of expired alarms: the broadcast log only grows; every new
broadcast comes from an expired non-preemption alarm of the entering
list; on a sorted list every expired non-preemption alarm is broadcast;
an unexpired alarm survives the loop; the head of the final list, if
any, has not expired. -/
theorem timerLoop_props (tfreq now : Nat) : ∀ (n : Nat) (st : TimerSt),
    expiredCount now st.sleepList ≤ n →
    (∃ suf, (timerLoop tfreq now st).broadcasts = st.broadcasts ++ suf) ∧
    (∀ i ∈ (timerLoop tfreq now st).broadcasts,
      i ∈ st.broadcasts ∨
        ∃ a, a ∈ st.sleepList ∧ a.ident = i ∧ a.twake < now ∧ a.interrupter = false) ∧
    (SortedTw st.sleepList →
      ∀ a ∈ st.sleepList, a.twake < now → a.interrupter = false →
        a.ident ∈ (timerLoop tfreq now st).broadcasts) ∧
    (∀ x ∈ st.sleepList, ¬ x.twake < now → x ∈ (timerLoop tfreq now st).sleepList) ∧
    (∀ a l, (timerLoop tfreq now st).sleepList = a :: l → ¬ a.twake < now) := by
  intro n
  induction n with
  | zero =>
      intro st hm
      rcases listCasesEq st.sleepList with hl | ⟨a, rest, hl⟩
      · rw [timerLoop_nil tfreq now st hl]
        refine ⟨⟨[], by simp⟩, fun i hi => Or.inl hi, ?_, fun x hx _ => hx, ?_⟩
        · intro _ b hb _ _
          rw [hl] at hb
          exact absurd hb (List.not_mem_nil b)
        · intro b l hfin
          rw [hl] at hfin
          exact List.noConfusion hfin
      · have hge : ¬ a.twake < now := by
          by_contra hcon
          rw [hl] at hm
          simp [expiredCount, List.countP_cons, hcon] at hm
        rw [timerLoop_stay tfreq now st a rest hl hge]
        refine ⟨⟨[], by simp⟩, fun i hi => Or.inl hi, ?_, fun x hx _ => hx, ?_⟩
        · intro hs b hb hbt _
          rw [hl] at hb hs
          rcases List.mem_cons.mp hb with h1 | h2
          · subst h1
            exact absurd hbt hge
          · rw [SortedTw, List.pairwise_cons] at hs
            have := hs.1 b h2
            omega
        · intro b l hfin
          rw [hl] at hfin
          injection hfin with h1 _
          subst h1
          exact hge
  | succ n ih =>
      intro st hm
      rcases listCasesEq st.sleepList with hl | ⟨a, rest, hl⟩
      · rw [timerLoop_nil tfreq now st hl]
        refine ⟨⟨[], by simp⟩, fun i hi => Or.inl hi, ?_, fun x hx _ => hx, ?_⟩
        · intro _ b hb _ _
          rw [hl] at hb
          exact absurd hb (List.not_mem_nil b)
        · intro b l hfin
          rw [hl] at hfin
          exact List.noConfusion hfin
      · by_cases hlt : a.twake < now
        · have hrest : expiredCount now rest ≤ n := by
            rw [hl] at hm
            have hstep : expiredCount now (a :: rest) = expiredCount now rest + 1 := by
              simp [expiredCount, List.countP_cons, hlt]
            omega
          by_cases hint : a.interrupter = true
          · rw [timerLoop_rearm tfreq now st a rest hl hlt hint]
            have hm2 : expiredCount now
                (alarm_sleep { a with twake := now } (ticks20ms tfreq) now
                  { st with sleepList := rest }).2.1.sleepList ≤ n := by
              have h1 := alarm_sleep_expired { a with twake := now } (ticks20ms tfreq)
                now { st with sleepList := rest }
              simp only at h1
              omega
            obtain ⟨IH1, IH2, IH3, IH4, IH5⟩ := ih _ hm2
            have hbc2 : (alarm_sleep { a with twake := now } (ticks20ms tfreq) now
                { st with sleepList := rest }).2.1.broadcasts = st.broadcasts :=
              alarm_sleep_broadcasts _ _ _ _
            refine ⟨?_, ?_, ?_, ?_, ?_⟩
            · obtain ⟨suf, hsuf⟩ := IH1
              exact ⟨suf, by rw [hsuf, hbc2]⟩
            · intro i hi
              rcases IH2 i hi with h1 | ⟨b, hb, hbid, hbt, hbint⟩
              · rw [hbc2] at h1
                exact Or.inl h1
              · rcases alarm_sleep_mem _ _ _ _ b hb with h2 | h3
                · rw [h2] at hbint
                  simp only at hbint
                  rw [hint] at hbint
                  exact absurd hbint (by simp)
                · refine Or.inr ⟨b, ?_, hbid, hbt, hbint⟩
                  rw [hl]
                  exact List.mem_cons_of_mem a h3
            · intro hs b hb hbt hbint
              rw [hl] at hb hs
              rcases List.mem_cons.mp hb with h1 | h2
              · subst h1
                rw [hint] at hbint
                exact absurd hbint (by simp)
              · rw [SortedTw, List.pairwise_cons] at hs
                have hb2 := alarm_sleep_mem_of_mem { a with twake := now }
                  (ticks20ms tfreq) now { st with sleepList := rest } b h2
                have hs2 := alarm_sleep_sorted { a with twake := now }
                  (ticks20ms tfreq) now { st with sleepList := rest } hs.2
                exact IH3 hs2 b hb2 hbt hbint
            · intro x hx hxe
              rw [hl] at hx
              rcases List.mem_cons.mp hx with h1 | h2
              · subst h1
                exact absurd hlt hxe
              · exact IH4 x (alarm_sleep_mem_of_mem _ _ _ _ x h2) hxe
            · exact IH5
          · rw [timerLoop_bcast tfreq now st a rest hl hlt (by simpa using hint)]
            have hm2 : expiredCount now
                ({ st with
                    sleepList := rest
                    broadcasts := st.broadcasts ++ [a.ident] } : TimerSt).sleepList ≤ n := by
              simpa using hrest
            obtain ⟨IH1, IH2, IH3, IH4, IH5⟩ := ih _ hm2
            refine ⟨?_, ?_, ?_, ?_, ?_⟩
            · obtain ⟨suf, hsuf⟩ := IH1
              exact ⟨[a.ident] ++ suf, by rw [hsuf]; simp⟩
            · intro i hi
              rcases IH2 i hi with h1 | ⟨b, hb, hbid, hbt, hbint⟩
              · simp only [List.mem_append, List.mem_singleton] at h1
                rcases h1 with h1a | h1b
                · exact Or.inl h1a
                · refine Or.inr ⟨a, ?_, h1b.symm, hlt, by simpa using hint⟩
                  rw [hl]
                  exact List.mem_cons_self a rest
              · refine Or.inr ⟨b, ?_, hbid, hbt, hbint⟩
                rw [hl]
                exact List.mem_cons_of_mem a hb
            · intro hs b hb hbt hbint
              rw [hl] at hb hs
              rw [SortedTw, List.pairwise_cons] at hs
              rcases List.mem_cons.mp hb with h1 | h2
              · subst h1
                obtain ⟨suf, hsuf⟩ := IH1
                rw [hsuf]
                simp
              · exact IH3 hs.2 b h2 hbt hbint
            · intro x hx hxe
              rw [hl] at hx
              rcases List.mem_cons.mp hx with h1 | h2
              · subst h1
                exact absurd hlt hxe
              · exact IH4 x h2 hxe
            · exact IH5
        · rw [timerLoop_stay tfreq now st a rest hl hlt]
          refine ⟨⟨[], by simp⟩, fun i hi => Or.inl hi, ?_, fun x hx _ => hx, ?_⟩
          · intro hs b hb hbt _
            rw [hl] at hb hs
            rcases List.mem_cons.mp hb with h1 | h2
            · subst h1
              exact absurd hbt hlt
            · rw [SortedTw, List.pairwise_cons] at hs
              have := hs.1 b h2
              omega
          · intro b l hfin
            rw [hl] at hfin
            injection hfin with h1 _
            subst h1
            exact hlt

/-- The reprogramming tail of `handle_timer_interrupt` does not change
the sleep list. -/
theorem handle_timer_sleepList (tfreq now : Nat) (st : TimerSt) :
    (handle_timer_interrupt tfreq now st).sleepList =
      (timerLoop tfreq now st).sleepList := by
  unfold handle_timer_interrupt
  rcases listCasesEq (timerLoop tfreq now st).sleepList with h | ⟨a, l, h⟩ <;>
    simp only [h]

/-- The reprogramming tail of `handle_timer_interrupt` does not change
the broadcast log. -/
theorem handle_timer_broadcasts (tfreq now : Nat) (st : TimerSt) :
    (handle_timer_interrupt tfreq now st).broadcasts =
      (timerLoop tfreq now st).broadcasts := by
  unfold handle_timer_interrupt
  rcases listCasesEq (timerLoop tfreq now st).sleepList with h | ⟨a, l, h⟩ <;>
    simp only [h]

/-- Counterexample to claim C6 as stated: at time 5, an alarm whose wake
time is exactly 5 (equal, not strictly less) is neither removed from the
sleep list nor broadcast — the ISR loop uses a strict comparison. -/
theorem claim_C6_counterexample : ¬ timerIsrClaim 10000 5 stTick := by
  intro h
  obtain ⟨_, hb⟩ := h { ident := 1, interrupter := false, twake := 5 }
    (by simp [stTick]) (le_refl 5) rfl
  have heval : handle_timer_interrupt 10000 5 stTick = { stTick with stcmp := 5 } := by
    rw [handle_timer_interrupt,
      timerLoop_stay 10000 5 stTick { ident := 1, interrupter := false, twake := 5 }
        [] rfl (by norm_num)]
    rfl
  rw [heval] at hb
  simp [stTick] at hb

/-- Claim C6 amended: on a timer interrupt at time now, every ordinary
alarm whose wake time is strictly earlier than now is removed from the
(sorted) sleep list and has its condition broadcast — an alarm whose
wake time equals now is left in place; each new broadcast comes from
such an alarm; the preemption alarm is re-armed at now plus the 20 ms
tick count and survives the loop; afterwards the compare register holds
the new head's wake time, or the timer interrupt source is disabled when
the list has emptied. -/
theorem claim_C6_timer_isr (tfreq now : Nat) (st : TimerSt) :
    (∀ i ∈ (handle_timer_interrupt tfreq now st).broadcasts,
      i ∈ st.broadcasts ∨
        ∃ a, a ∈ st.sleepList ∧ a.ident = i ∧ a.twake < now ∧ a.interrupter = false) ∧
    (SortedTw st.sleepList →
      ∀ a ∈ st.sleepList, a.twake < now → a.interrupter = false →
        a.ident ∈ (handle_timer_interrupt tfreq now st).broadcasts) ∧
    (∀ a l, (handle_timer_interrupt tfreq now st).sleepList = a :: l →
      ¬ a.twake < now) ∧
    ((handle_timer_interrupt tfreq now st).sleepList = [] →
      (handle_timer_interrupt tfreq now st).stie = false) ∧
    (∀ a l, (handle_timer_interrupt tfreq now st).sleepList = a :: l →
      (handle_timer_interrupt tfreq now st).stcmp = a.twake) ∧
    (∀ a rest, st.sleepList = a :: rest → a.twake < now → a.interrupter = true →
      ticks20ms tfreq ≤ UINT64MAX - now → now ≤ UINT64MAX - ticks20ms tfreq →
      { a with twake := now + ticks20ms tfreq } ∈
        (handle_timer_interrupt tfreq now st).sleepList) := by
  obtain ⟨P1, P2, P3, P4, P5⟩ :=
    timerLoop_props tfreq now (expiredCount now st.sleepList) st (le_refl _)
  refine ⟨?_, ?_, ?_, ?_, ?_, ?_⟩
  · intro i hi
    rw [handle_timer_broadcasts] at hi
    exact P2 i hi
  · intro hs a ha hlt hni
    rw [handle_timer_broadcasts]
    exact P3 hs a ha hlt hni
  · intro a l hfin
    rw [handle_timer_sleepList] at hfin
    exact P5 a l hfin
  · intro hnil
    rw [handle_timer_sleepList] at hnil
    unfold handle_timer_interrupt
    simp only [hnil]
  · intro a l hfin
    rw [handle_timer_sleepList] at hfin
    unfold handle_timer_interrupt
    simp only [hfin]
  · intro a rest hl hlt hint hsat hsat2
    have hadv : advanceTwake now (ticks20ms tfreq) = now + ticks20ms tfreq := by
      unfold advanceTwake
      rw [if_neg (by omega)]
    rw [handle_timer_sleepList, timerLoop_rearm tfreq now st a rest hl hlt hint]
    have hmem : { a with twake := now + ticks20ms tfreq } ∈
        (alarm_sleep { a with twake := now } (ticks20ms tfreq) now
          { st with sleepList := rest }).2.1.sleepList := by
      simp only [alarm_sleep, hadv]
      rw [if_neg (by omega : ¬ now + ticks20ms tfreq < now)]
      exact (mem_sleepInsert _ _ _).mpr (Or.inl rfl)
    obtain ⟨_, _, _, Q4, _⟩ :=
      timerLoop_props tfreq now
        (expiredCount now (alarm_sleep { a with twake := now } (ticks20ms tfreq) now
          { st with sleepList := rest }).2.1.sleepList) _ (le_refl _)
    exact Q4 _ hmem (by show ¬ now + ticks20ms tfreq < now; omega)

/-- Witness for claim C6: at time 5 over a sorted singleton list, the
alarm with wake time 4 is broadcast and the interrupt source is then
disabled; the expired preemption alarm is re-armed at 5 + 20 ms. -/
theorem claim_C6_witness :
    1 ∈ (handle_timer_interrupt 10000 5 stPast).broadcasts ∧
    ({ ident := 0, interrupter := true, twake := 25 } : Alarm) ∈
      (handle_timer_interrupt 1000 5 stInt).sleepList :=
  ⟨(claim_C6_timer_isr 10000 5 stPast).2.1
      (by simp [stPast, SortedTw])
      { ident := 1, interrupter := false, twake := 4 }
      (by simp [stPast]) (by norm_num) rfl,
    by
      have h := (claim_C6_timer_isr 1000 5 stInt).2.2.2.2.2
        { ident := 0, interrupter := true, twake := 4 } [] rfl (by norm_num) rfl
        (by norm_num [ticks20ms, UINT64MAX]) (by norm_num [ticks20ms, UINT64MAX])
      simpa [ticks20ms] using h⟩

/-! ### KTFS delete lemmas -/

/-- `free_block` touches only the on-disk bitmap. -/
theorem free_block_fields (st : FsSt) (bn : Nat) :
    (free_block st bn).dirBlocks = st.dirBlocks ∧
    (free_block st bn).rootDirInode = st.rootDirInode ∧
    (free_block st bn).diskInodes = st.diskInodes ∧
    (free_block st bn).rootInodeNum = st.rootInodeNum :=
  ⟨rfl, rfl, rfl, rfl⟩

/-- Fields other than the bitmap are preserved by any fold whose step
preserves them. -/
theorem foldl_preserves_fields {α : Type} (f : FsSt → α → FsSt)
    (hf : ∀ s a, (f s a).dirBlocks = s.dirBlocks ∧ (f s a).rootDirInode = s.rootDirInode ∧
      (f s a).diskInodes = s.diskInodes ∧ (f s a).rootInodeNum = s.rootInodeNum)
    (l : List α) : ∀ s : FsSt,
    ((l.foldl f s).dirBlocks = s.dirBlocks) ∧
    ((l.foldl f s).rootDirInode = s.rootDirInode) ∧
    ((l.foldl f s).diskInodes = s.diskInodes) ∧
    ((l.foldl f s).rootInodeNum = s.rootInodeNum) := by
  induction l with
  | nil => exact fun s => ⟨rfl, rfl, rfl, rfl⟩
  | cons x t ih =>
      intro s
      obtain ⟨h1, h2, h3, h4⟩ := hf s x
      obtain ⟨g1, g2, g3, g4⟩ := ih (f s x)
      exact ⟨g1.trans h1, g2.trans h2, g3.trans h3, g4.trans h4⟩

/-- The data-block free loop of `ktfs_delete` touches only the
bitmap. -/
theorem freeDataBlocks_fields (ino : Inode) (n : Nat) (st : FsSt) :
    (freeDataBlocks ino n st).dirBlocks = st.dirBlocks ∧
    (freeDataBlocks ino n st).rootDirInode = st.rootDirInode ∧
    (freeDataBlocks ino n st).diskInodes = st.diskInodes ∧
    (freeDataBlocks ino n st).rootInodeNum = st.rootInodeNum :=
  foldl_preserves_fields _ (fun s a => free_block_fields s (inodeidxblocknum s ino a))
    (List.range n) st

/-- The double-indirect free loop of `ktfs_delete` touches only the
bitmap. -/
theorem freeDindirect_fields (ino : Inode) (st : FsSt) :
    (freeDindirect ino st).dirBlocks = st.dirBlocks ∧
    (freeDindirect ino st).rootDirInode = st.rootDirInode ∧
    (freeDindirect ino st).diskInodes = st.diskInodes ∧
    (freeDindirect ino st).rootInodeNum = st.rootInodeNum := by
  have hstep1 : ∀ (d : Nat) (s3 : FsSt) (j : Nat),
      ((if s3.ptrBlocks d j ≠ 0 then free_block s3 (s3.ptrBlocks d j) else s3).dirBlocks =
        s3.dirBlocks) ∧
      ((if s3.ptrBlocks d j ≠ 0 then free_block s3 (s3.ptrBlocks d j) else s3).rootDirInode =
        s3.rootDirInode) ∧
      ((if s3.ptrBlocks d j ≠ 0 then free_block s3 (s3.ptrBlocks d j) else s3).diskInodes =
        s3.diskInodes) ∧
      ((if s3.ptrBlocks d j ≠ 0 then free_block s3 (s3.ptrBlocks d j) else s3).rootInodeNum =
        s3.rootInodeNum) := by
    intro d s3 j
    by_cases hc : s3.ptrBlocks d j ≠ 0
    · rw [if_pos hc]
      exact free_block_fields s3 (s3.ptrBlocks d j)
    · rw [if_neg hc]
      exact ⟨rfl, rfl, rfl, rfl⟩
  refine foldl_preserves_fields _ ?_ (List.range KTFS_NUM_DINDIRECT_BLOCKS) st
  intro s i
  show ((if ino.dindirect.getD i 0 ≠ 0 then
      free_block ((List.range KTFS_BLKS_PER_INDIRECT).foldl
        (fun s3 j => if s3.ptrBlocks (ino.dindirect.getD i 0) j ≠ 0
          then free_block s3 (s3.ptrBlocks (ino.dindirect.getD i 0) j) else s3) s)
        (ino.dindirect.getD i 0)
    else s).dirBlocks = s.dirBlocks) ∧ _
  by_cases hd : ino.dindirect.getD i 0 ≠ 0
  · rw [if_pos hd]
    have hinner := foldl_preserves_fields _ (hstep1 (ino.dindirect.getD i 0))
      (List.range KTFS_BLKS_PER_INDIRECT) s
    obtain ⟨h1, h2, h3, h4⟩ := hinner
    obtain ⟨f1, f2, f3, f4⟩ := free_block_fields ((List.range KTFS_BLKS_PER_INDIRECT).foldl
      (fun s3 j => if s3.ptrBlocks (ino.dindirect.getD i 0) j ≠ 0
        then free_block s3 (s3.ptrBlocks (ino.dindirect.getD i 0) j) else s3) s)
      (ino.dindirect.getD i 0)
    exact ⟨f1.trans h1, f2.trans h2, f3.trans h3, f4.trans h4⟩
  · rw [if_neg hd]
    exact ⟨rfl, rfl, rfl, rfl⟩

/-- Closing an open file touches only the open-file name table. -/
theorem deleteClose_fields (st : FsSt) (entry : DirEntry) :
    (deleteClose st entry).dirBlocks = st.dirBlocks ∧
    (deleteClose st entry).rootDirInode = st.rootDirInode ∧
    (deleteClose st entry).diskInodes = st.diskInodes ∧
    (deleteClose st entry).rootInodeNum = st.rootInodeNum := by
  cases hfind : (List.range st.openNames.length).find?
      (fun f => st.openNames.getD f 0 = entry.name) with
  | none =>
      unfold deleteClose
      rw [hfind]
      exact ⟨rfl, rfl, rfl, rfl⟩
  | some f =>
      unfold deleteClose
      rw [hfind]
      exact ⟨rfl, rfl, rfl, rfl⟩

/-- The block-freeing phase touches only the bitmap. -/
theorem deleteFreePhase_fields (st : FsSt) (entry : DirEntry) :
    (deleteFreePhase st entry).dirBlocks = st.dirBlocks ∧
    (deleteFreePhase st entry).rootDirInode = st.rootDirInode ∧
    (deleteFreePhase st entry).diskInodes = st.diskInodes ∧
    (deleteFreePhase st entry).rootInodeNum = st.rootInodeNum := by
  simp only [deleteFreePhase]
  set ino := st.diskInodes (entry.inode / INODES_PER_BLK) (entry.inode % INODES_PER_BLK)
  set fsib := (ino.size + KTFS_BLKSZ - 1) / KTFS_BLKSZ
  obtain ⟨a1, a2, a3, a4⟩ := freeDataBlocks_fields ino fsib st
  set st1 := freeDataBlocks ino fsib st
  have hst2 : ((if KTFS_NUM_DIRECT_DATA_BLOCKS < fsib ∧ ino.indirect ≠ 0 then
        free_block st1 ino.indirect else st1).dirBlocks = st.dirBlocks) ∧
      ((if KTFS_NUM_DIRECT_DATA_BLOCKS < fsib ∧ ino.indirect ≠ 0 then
        free_block st1 ino.indirect else st1).rootDirInode = st.rootDirInode) ∧
      ((if KTFS_NUM_DIRECT_DATA_BLOCKS < fsib ∧ ino.indirect ≠ 0 then
        free_block st1 ino.indirect else st1).diskInodes = st.diskInodes) ∧
      ((if KTFS_NUM_DIRECT_DATA_BLOCKS < fsib ∧ ino.indirect ≠ 0 then
        free_block st1 ino.indirect else st1).rootInodeNum = st.rootInodeNum) := by
    by_cases hc : KTFS_NUM_DIRECT_DATA_BLOCKS < fsib ∧ ino.indirect ≠ 0
    · rw [if_pos hc]
      obtain ⟨b1, b2, b3, b4⟩ := free_block_fields st1 ino.indirect
      exact ⟨b1.trans a1, b2.trans a2, b3.trans a3, b4.trans a4⟩
    · rw [if_neg hc]
      exact ⟨a1, a2, a3, a4⟩
  set st2 := if KTFS_NUM_DIRECT_DATA_BLOCKS < fsib ∧ ino.indirect ≠ 0 then
    free_block st1 ino.indirect else st1
  by_cases hc2 : KTFS_NUM_DIRECT_DATA_BLOCKS + KTFS_BLKS_PER_INDIRECT < fsib
  · rw [if_pos hc2]
    obtain ⟨c1, c2, c3, c4⟩ := freeDindirect_fields ino st2
    exact ⟨c1.trans hst2.1, c2.trans hst2.2.1, c3.trans hst2.2.2.1, c4.trans hst2.2.2.2⟩
  · rw [if_neg hc2]
    exact hst2

/-- What the directory-update phase of `ktfs_delete` does to the
directory blocks, the root inode, and the on-disk root inode slot. -/
theorem deleteSwapPhase_spec (st3 : FsSt) (blkidx dentryidx inodeidx : Nat)
    (halias : blkidx = lastBlkOf st3 ∨
      st3.rootDirInode.block.getD blkidx 0 ≠
        st3.rootDirInode.block.getD (lastBlkOf st3) 0) :
    (deleteSwapPhase st3 blkidx dentryidx inodeidx).rootDirInode =
      { st3.rootDirInode with size := st3.rootDirInode.size - KTFS_DENSZ } ∧
    (deleteSwapPhase st3 blkidx dentryidx inodeidx).dirBlocks
        (st3.rootDirInode.block.getD blkidx 0) dentryidx =
      st3.dirBlocks (st3.rootDirInode.block.getD (lastBlkOf st3) 0) (lastIdxOf st3) ∧
    (blkidx ≠ lastBlkOf st3 →
      (deleteSwapPhase st3 blkidx dentryidx inodeidx).dirBlocks
        (st3.rootDirInode.block.getD (lastBlkOf st3) 0) (lastIdxOf st3) = zeroEntry) ∧
    (blkidx = lastBlkOf st3 → dentryidx ≠ lastIdxOf st3 →
      (deleteSwapPhase st3 blkidx dentryidx inodeidx).dirBlocks
        (st3.rootDirInode.block.getD (lastBlkOf st3) 0) (lastIdxOf st3) =
      st3.dirBlocks (st3.rootDirInode.block.getD (lastBlkOf st3) 0) (lastIdxOf st3)) ∧
    (deleteSwapPhase st3 blkidx dentryidx inodeidx).diskInodes
        (st3.rootInodeNum / INODES_PER_BLK) (st3.rootInodeNum % INODES_PER_BLK) =
      { st3.rootDirInode with size := st3.rootDirInode.size - KTFS_DENSZ } := by
  have hlb : (st3.rootDirInode.size / KTFS_DENSZ - 1) / DIR_SIZE = lastBlkOf st3 := rfl
  have hli : (st3.rootDirInode.size / KTFS_DENSZ - 1) % DIR_SIZE = lastIdxOf st3 := rfl
  by_cases hbl : blkidx ≠ lastBlkOf st3
  · simp only [deleteSwapPhase, hlb, hli, if_pos hbl, eq_self_iff_true, true_and,
      and_self, if_true]
    have hne : st3.rootDirInode.block.getD blkidx 0 ≠
        st3.rootDirInode.block.getD (lastBlkOf st3) 0 := by
      rcases halias with h | h
      · exact absurd h hbl
      · exact h
    refine ⟨?_, fun _ => trivial, ?_, trivial⟩
    · rw [if_neg (fun h => hne h.1)]
    · intro hc _
      exact absurd hc hbl
  · rw [not_not] at hbl
    simp only [deleteSwapPhase, hlb, hli,
      if_neg (by rw [hbl]; exact fun h => h rfl : ¬ blkidx ≠ lastBlkOf st3),
      eq_self_iff_true, true_and, and_self, if_true]
    exact ⟨fun hc => absurd hbl hc, fun _ _ => ite_self _, trivial⟩

/-- Counterexample to claim C7 as stated: deleting the first of two
entries that share the root directory's first block swap-copies the last
entry into the deleted slot but leaves the last slot un-zeroed — the
zeroing is guarded by `blkidx != last_blk_idx`. -/
theorem claim_C7_counterexample : ¬ deleteSwapClaim stTwo 10 := by
  intro h
  obtain ⟨st', hdel⟩ : ∃ x, ktfs_delete stTwo 10 = Except.ok x := ⟨_, rfl⟩
  have hsearch : deleteSearch stTwo 10 = some (0, 0, { name := 10, inode := 2 }) := rfl
  obtain ⟨_, hzero⟩ := h (0, 0, { name := 10, inode := 2 }) st' hsearch hdel
  have h2 := Except.ok.inj hdel
  have hval : st'.dirBlocks 5 1 = { name := 11, inode := 3 } := by
    rw [← h2]
    rfl
  have hkey : stTwo.rootDirInode.block.getD
      ((stTwo.rootDirInode.size / KTFS_DENSZ - 1) / DIR_SIZE) 0 = 5 := rfl
  have hidx : (stTwo.rootDirInode.size / KTFS_DENSZ - 1) % DIR_SIZE = 1 := rfl
  rw [hkey, hidx, hval] at hzero
  simp [zeroEntry] at hzero

/-- Claim C7 amended: for a root directory containing the named entry,
delete overwrites the deleted entry's slot with the last directory entry
and decrements the root directory size by 32; the last entry's on-disk
slot is zeroed only when the deleted entry and the last entry reside in
different directory blocks — in the same-block case the last slot keeps
its old contents; the updated root inode is written back to disk. -/
theorem claim_C7_swap_delete (st : FsSt) (name i j : Nat) (entry : DirEntry) (st' : FsSt)
    (hsearch : deleteSearch st name = some (i, j, entry))
    (hdel : ktfs_delete st name = .ok st')
    (halias : i = lastBlkOf st ∨
      st.rootDirInode.block.getD i 0 ≠ st.rootDirInode.block.getD (lastBlkOf st) 0) :
    st'.rootDirInode.size = st.rootDirInode.size - KTFS_DENSZ ∧
    st'.dirBlocks (st.rootDirInode.block.getD i 0) j =
      st.dirBlocks (st.rootDirInode.block.getD (lastBlkOf st) 0) (lastIdxOf st) ∧
    (i ≠ lastBlkOf st →
      st'.dirBlocks (st.rootDirInode.block.getD (lastBlkOf st) 0) (lastIdxOf st) =
        zeroEntry) ∧
    (i = lastBlkOf st → j ≠ lastIdxOf st →
      st'.dirBlocks (st.rootDirInode.block.getD (lastBlkOf st) 0) (lastIdxOf st) =
        st.dirBlocks (st.rootDirInode.block.getD (lastBlkOf st) 0) (lastIdxOf st)) ∧
    st'.diskInodes (st.rootInodeNum / INODES_PER_BLK) (st.rootInodeNum % INODES_PER_BLK) =
      { st.rootDirInode with size := st.rootDirInode.size - KTFS_DENSZ } := by
  have hform := hdel
  simp only [ktfs_delete, hsearch] at hform
  have hst := Except.ok.inj hform
  obtain ⟨c1, c2, c3, c4⟩ := deleteClose_fields st entry
  obtain ⟨f1, f2, f3, f4⟩ := deleteFreePhase_fields (deleteClose st entry) entry
  have h3dir : (deleteFreePhase (deleteClose st entry) entry).dirBlocks =
      st.dirBlocks := f1.trans c1
  have h3root : (deleteFreePhase (deleteClose st entry) entry).rootDirInode =
      st.rootDirInode := f2.trans c2
  have h3rnum : (deleteFreePhase (deleteClose st entry) entry).rootInodeNum =
      st.rootInodeNum := f4.trans c4
  have hlbeq : lastBlkOf (deleteFreePhase (deleteClose st entry) entry) = lastBlkOf st := by
    rw [lastBlkOf, lastBlkOf, h3root]
  have hlieq : lastIdxOf (deleteFreePhase (deleteClose st entry) entry) = lastIdxOf st := by
    rw [lastIdxOf, lastIdxOf, h3root]
  obtain ⟨s1, s2, s3c, s4, s5⟩ :=
    deleteSwapPhase_spec (deleteFreePhase (deleteClose st entry) entry) i j entry.inode
      (by rw [hlbeq, h3root]; exact halias)
  simp only [h3dir, h3root, h3rnum, hlbeq, hlieq] at s1 s2 s3c s4 s5
  rw [← hst]
  exact ⟨by rw [s1], s2, s3c, s4, s5⟩

/-- Witness for claim C7 on a 17-entry root directory (16 entries in
block 5, one in block 6): deleting the first entry copies the block-6
entry into its slot, zeroes the block-6 slot, and shrinks the directory
to 512 bytes. -/
theorem claim_C7_witness :
    ∃ st', ktfs_delete stMany 100 = .ok st' ∧
      st'.rootDirInode.size = 512 ∧
      st'.dirBlocks 6 0 = zeroEntry ∧
      st'.dirBlocks 5 0 = { name := 200, inode := 30 } := by
  obtain ⟨st', hdel⟩ : ∃ x, ktfs_delete stMany 100 = Except.ok x := ⟨_, rfl⟩
  have hsearch : deleteSearch stMany 100 = some (0, 0, { name := 100, inode := 2 }) := rfl
  obtain ⟨p1, p2, p3, _, _⟩ :=
    claim_C7_swap_delete stMany 100 0 0 { name := 100, inode := 2 } st' hsearch hdel
      (Or.inr (by norm_num [stMany, lastBlkOf, KTFS_DENSZ, DIR_SIZE]))
  have hlb : lastBlkOf stMany = 1 := rfl
  have hli : lastIdxOf stMany = 0 := rfl
  refine ⟨st', hdel, ?_, ?_, ?_⟩
  · rw [p1]
    rfl
  · have h3 := p3 (by rw [hlb]; norm_num)
    rw [hlb, hli] at h3
    simpa [stMany] using h3
  · rw [hlb, hli] at p2
    have hk5 : stMany.rootDirInode.block.getD 0 0 = 5 := rfl
    have hk6 : stMany.rootDirInode.block.getD 1 0 = 6 := rfl
    rw [hk5, hk6] at p2
    rw [p2]
    rfl


theorem add_new_indirect_blk_dentry (f : KtfsFile) (st : FsSt) (old : Nat)
    (fo : KtfsFile) (so : FsSt)
    (h : add_new_indirect_blk f st old = .ok (fo, so)) : fo.dentry = f.dentry := by
  unfold add_new_indirect_blk at h
  split at h
  · split at h
    · exact Except.noConfusion h
    · injection h with h2
      injection h2 with ha hb
      subst ha
      rfl
  · injection h with h2
    injection h2 with ha hb
    subst ha
    rfl

theorem add_new_dindirect_blk_dentry (f : KtfsFile) (st : FsSt) (nzo : Nat)
    (fo : KtfsFile) (so : FsSt)
    (h : add_new_dindirect_blk f st nzo = .ok (fo, so)) : fo.dentry = f.dentry := by
  unfold add_new_dindirect_blk at h
  split at h
  · split at h
    · exact Except.noConfusion h
    · injection h with h2
      injection h2 with ha hb
      subst ha
      rfl
  · split at h
    · split at h
      · exact Except.noConfusion h
      · injection h with h2
        injection h2 with ha hb
        subst ha
        rfl
    · injection h with h2
      injection h2 with ha hb
      subst ha
      rfl

set_option maxRecDepth 8192 in
theorem add_new_inode_datablk_dentry (f : KtfsFile) (st : FsSt) (old : Nat)
    (fo : KtfsFile) (so : FsSt)
    (h : add_new_inode_datablk f st old = .ok (fo, so)) : fo.dentry = f.dentry := by
  unfold add_new_inode_datablk at h
  simp only [] at h
  split at h
  · split at h
    · exact Except.noConfusion h
    · injection h with h2
      injection h2 with ha hb
      subst ha
      rfl
  · split at h
    · split at h
      · exact Except.noConfusion h
      · rename_i f1 st1 heq1
        split at h
        · exact Except.noConfusion h
        · injection h with h2
          injection h2 with ha hb
          subst ha
          exact add_new_indirect_blk_dentry f st old f1 st1 heq1
    · split at h
      · exact Except.noConfusion h
      · rename_i f1 st1 heq1
        split at h
        · exact Except.noConfusion h
        · rename_i st2 heq2
          split at h
          · exact Except.noConfusion h
          · injection h with h2
            injection h2 with ha hb
            subst ha
            exact add_new_dindirect_blk_dentry f st _ f1 st1 heq1

theorem grow_clip (f : KtfsFile) (st : FsSt) (endv : Nat) (g : Bool)
    (h1 : f.inode.size < endv) (h2 : endv < roundUpBlk f.inode.size) :
    ktfs_setend_grow f st endv g =
      .ok ({ f with inode := { f.inode with size := endv } },
        write_inode_to_disk f.dentry.inode { f.inode with size := endv } st) := by
  rw [ktfs_setend_grow]
  rw [if_pos h1]
  rw [if_pos h2]

theorem grow_props (n : Nat) :
    ∀ (f : KtfsFile) (st : FsSt) (endv : Nat) (g : Bool) (f2 : KtfsFile) (st2 : FsSt),
      endv - f.inode.size ≤ n →
      ktfs_setend_grow f st endv g = Except.ok (f2, st2) →
      f2.inode.size = endv ∧ f2.dentry = f.dentry ∧
      st2.diskInodes (f2.dentry.inode / INODES_PER_BLK) (f2.dentry.inode % INODES_PER_BLK)
        = f2.inode := by
  induction n with
  | zero =>
    intro f st endv g f2 st2 hm h
    rw [ktfs_setend_grow] at h
    simp only [] at h
    by_cases hlt : f.inode.size < endv
    · exact absurd hlt (by omega)
    · rw [if_neg hlt] at h
      injection h with h2
      injection h2 with ha hb
      subst ha
      subst hb
      refine ⟨rfl, rfl, ?_⟩
      simp [write_inode_to_disk]
  | succ n ih =>
    intro f st endv g f2 st2 hm h
    rw [ktfs_setend_grow] at h
    simp only [] at h
    by_cases hlt : f.inode.size < endv
    · rw [if_pos hlt] at h
      by_cases hclip : endv < roundUpBlk f.inode.size
      · rw [if_pos hclip] at h
        injection h with h2
        injection h2 with ha hb
        subst ha
        subst hb
        refine ⟨rfl, rfl, ?_⟩
        simp [write_inode_to_disk]
      · rw [if_neg hclip] at h
        by_cases hz : roundUpBlk f.inode.size = 0
        · rw [if_pos hz] at h
          cases halloc : allocate_open_block st with
          | none =>
            rw [halloc] at h
            exact Except.noConfusion h
          | some p =>
            obtain ⟨b, st1⟩ := p
            rw [halloc] at h
            replace h : (if g = true then Except.error ENODATABLKS
                else ktfs_setend_grow
                  { dentry := f.dentry,
                    inode :=
                      { size := roundUpBlk f.inode.size / KTFS_BLKSZ * KTFS_BLKSZ + KTFS_BLKSZ,
                        block := f.inode.block.set 0 b, indirect := f.inode.indirect,
                        dindirect := f.inode.dindirect } }
                  (write_inode_to_disk f.dentry.inode
                    { size := roundUpBlk f.inode.size, block := f.inode.block.set 0 b,
                      indirect := f.inode.indirect, dindirect := f.inode.dindirect } st1)
                  endv g) = Except.ok (f2, st2) := h
            by_cases hg : g = true
            · rw [if_pos hg] at h
              exact Except.noConfusion h
            · rw [if_neg hg] at h
              obtain ⟨hs, hd, hw⟩ := ih _ _ endv g f2 st2 (by
                show endv - (roundUpBlk f.inode.size / KTFS_BLKSZ * KTFS_BLKSZ + KTFS_BLKSZ) ≤ n
                simp only [roundUpBlk, KTFS_BLKSZ]
                omega) h
              exact ⟨hs, hd.trans rfl, hw⟩
        · rw [if_neg hz] at h
          cases hadd : add_new_inode_datablk
              { dentry := f.dentry,
                inode :=
                  { size := roundUpBlk f.inode.size, block := f.inode.block,
                    indirect := f.inode.indirect, dindirect := f.inode.dindirect } }
              st ((roundUpBlk f.inode.size - 1) / KTFS_BLKSZ) with
          | error e =>
            rw [hadd] at h
            exact Except.noConfusion h
          | ok p =>
            obtain ⟨fm, stm⟩ := p
            rw [hadd] at h
            replace h : ktfs_setend_grow
                { dentry := fm.dentry,
                  inode :=
                    { size := roundUpBlk f.inode.size / KTFS_BLKSZ * KTFS_BLKSZ + KTFS_BLKSZ,
                      block := fm.inode.block, indirect := fm.inode.indirect,
                      dindirect := fm.inode.dindirect } }
                stm endv g = Except.ok (f2, st2) := h
            have hden := add_new_inode_datablk_dentry _ _ _ _ _ hadd
            obtain ⟨hs, hd, hw⟩ := ih _ _ endv g f2 st2 (by
              show endv - (roundUpBlk f.inode.size / KTFS_BLKSZ * KTFS_BLKSZ + KTFS_BLKSZ) ≤ n
              simp only [roundUpBlk, KTFS_BLKSZ]
              omega) h
            exact ⟨hs, hd.trans (hden.trans rfl), hw⟩
    · rw [if_neg hlt] at h
      injection h with h2
      injection h2 with ha hb
      subst ha
      subst hb
      refine ⟨rfl, rfl, ?_⟩
      simp [write_inode_to_disk]


/-- Counterexample to claim C1 as stated: shrinking an open 512-byte
file to end 0 does not succeed — the set-end command returns `-EINVAL`
for any request smaller than the current size. -/
theorem claim_C1_counterexample : ¬ setendShrinkClaim fGrown stF 0 := by
  intro hc
  obtain ⟨f2, st2, hok, _⟩ := hc (by decide)
  have hres : ktfs_cntl_setend fGrown stF (some 0) false = Except.error EINVAL := rfl
  rw [hres] at hok
  exact Except.noConfusion hok

/-- Claim C1 amended: the set-end command rejects a NULL argument with
`-EINVAL`; a request equal to the current size succeeds unchanged; a
request smaller than the current size fails with `-EINVAL` (the shrink
direction is not implemented, so in particular set-end(0) after a grow
fails); a request larger than the current size that returns success has
set the size exactly to the request, kept the directory entry, and
written the inode back to its on-disk slot; and the block-installing
helper adds the indirect block when the new block is the first past the
direct region (`old_idx = 3`) and the first double-indirect block when
the new block is the first of that region (`old_idx = 131`), in each
case freshly allocated from the bitmap. -/
theorem claim_C1_setend (f : KtfsFile) (st : FsSt) (endv : Nat) (g : Bool) :
    ktfs_cntl_setend f st none g = Except.error EINVAL ∧
    (endv = f.inode.size → ktfs_cntl_setend f st (some endv) g = Except.ok (f, st)) ∧
    (endv < f.inode.size → ktfs_cntl_setend f st (some endv) g = Except.error EINVAL) ∧
    (∀ f2 st2, f.inode.size < endv →
      ktfs_cntl_setend f st (some endv) g = Except.ok (f2, st2) →
      f2.inode.size = endv ∧ f2.dentry = f.dentry ∧
      st2.diskInodes (f.dentry.inode / INODES_PER_BLK) (f.dentry.inode % INODES_PER_BLK)
        = f2.inode) ∧
    (∀ fo so, add_new_inode_datablk f st 3 = Except.ok (fo, so) →
      ∃ b stb, allocate_open_block st = some (b, stb) ∧
        fo.inode.indirect = b ∧ fo.inode.block = f.inode.block) ∧
    (∀ fo so, add_new_inode_datablk f st 131 = Except.ok (fo, so) →
      ∃ b stb, allocate_open_block st = some (b, stb) ∧
        fo.inode.dindirect = f.inode.dindirect.set 0 b ∧ fo.inode.block = f.inode.block) := by
  refine ⟨rfl, ?_, ?_, ?_, ?_, ?_⟩
  · intro h
    show (if endv = f.inode.size then Except.ok (f, st)
      else if f.inode.size < endv then ktfs_setend_grow f st endv g
      else Except.error EINVAL) = Except.ok (f, st)
    rw [if_pos h]
  · intro h
    show (if endv = f.inode.size then Except.ok (f, st)
      else if f.inode.size < endv then ktfs_setend_grow f st endv g
      else Except.error EINVAL) = Except.error EINVAL
    rw [if_neg (by omega), if_neg (by omega)]
  · intro f2 st2 hlt hok
    replace hok : (if endv = f.inode.size then Except.ok (f, st)
      else if f.inode.size < endv then ktfs_setend_grow f st endv g
      else Except.error EINVAL) = Except.ok (f2, st2) := hok
    rw [if_neg (by omega), if_pos hlt] at hok
    obtain ⟨hs, hd, hw⟩ := grow_props endv f st endv g f2 st2 (by omega) hok
    refine ⟨hs, hd, ?_⟩
    rw [← hd]
    exact hw
  · intro fo so h
    replace h : (match add_new_indirect_blk f st 3 with
      | Except.error e => Except.error e
      | Except.ok (f1, st1) =>
          match allocate_open_block st1 with
          | none => Except.error ENODATABLKS
          | some (b2, st2) =>
              Except.ok (f1, setPtr st2 f1.inode.indirect
                (3 + 1 - KTFS_NUM_DIRECT_DATA_BLOCKS) b2)) = Except.ok (fo, so) := h
    cases hstep : add_new_indirect_blk f st 3 with
    | error e =>
      rw [hstep] at h
      exact Except.noConfusion h
    | ok p =>
      obtain ⟨f1, st1⟩ := p
      rw [hstep] at h
      replace h : (match allocate_open_block st1 with
        | none => Except.error ENODATABLKS
        | some (b2, st2) =>
            Except.ok (f1, setPtr st2 f1.inode.indirect
              (3 + 1 - KTFS_NUM_DIRECT_DATA_BLOCKS) b2)) = Except.ok (fo, so) := h
      cases halloc2 : allocate_open_block st1 with
      | none =>
        rw [halloc2] at h
        exact Except.noConfusion h
      | some q =>
        obtain ⟨b2, st2v⟩ := q
        rw [halloc2] at h
        replace h : Except.ok (f1, setPtr st2v f1.inode.indirect
            (3 + 1 - KTFS_NUM_DIRECT_DATA_BLOCKS) b2) = Except.ok (fo, so) := h
        injection h with h2
        injection h2 with ha hb
        subst ha
        replace hstep : (match allocate_open_block st with
          | none => Except.error ENODATABLKS
          | some (b, st1) =>
              Except.ok ({ f with inode := { f.inode with indirect := b } },
                write_inode_to_disk f.dentry.inode
                  { f.inode with indirect := b } st1)) = Except.ok (f1, st1) := hstep
        cases halloc : allocate_open_block st with
        | none =>
          rw [halloc] at hstep
          exact Except.noConfusion hstep
        | some r =>
          obtain ⟨b, stb⟩ := r
          rw [halloc] at hstep
          replace hstep : Except.ok ({ f with inode := { f.inode with indirect := b } },
              write_inode_to_disk f.dentry.inode
                { f.inode with indirect := b } stb) = Except.ok (f1, st1) := hstep
          injection hstep with h3
          injection h3 with hc hd
          subst hc
          exact ⟨b, stb, rfl, rfl, rfl⟩
  · intro fo so h
    replace h : (match add_new_dindirect_blk f st 0 with
      | Except.error e => Except.error e
      | Except.ok (f1, st1) =>
          match add_new_group_indirect st1 (f1.inode.dindirect.getD 0 0) 0 0 with
          | Except.error e => Except.error e
          | Except.ok st2 =>
              match allocate_open_block st2 with
              | none => Except.error ENODATABLKS
              | some (b3, st3) =>
                  Except.ok (f1, setPtr st3
                    (st2.ptrBlocks (f1.inode.dindirect.getD 0 0) 0) 0 b3)) =
        Except.ok (fo, so) := h
    cases hstep : add_new_dindirect_blk f st 0 with
    | error e =>
      rw [hstep] at h
      exact Except.noConfusion h
    | ok p =>
      obtain ⟨f1, st1⟩ := p
      rw [hstep] at h
      replace h : (match add_new_group_indirect st1 (f1.inode.dindirect.getD 0 0) 0 0 with
        | Except.error e => Except.error e
        | Except.ok st2 =>
            match allocate_open_block st2 with
            | none => Except.error ENODATABLKS
            | some (b3, st3) =>
                Except.ok (f1, setPtr st3
                  (st2.ptrBlocks (f1.inode.dindirect.getD 0 0) 0) 0 b3)) =
          Except.ok (fo, so) := h
      cases hg : add_new_group_indirect st1 (f1.inode.dindirect.getD 0 0) 0 0 with
      | error e =>
        rw [hg] at h
        exact Except.noConfusion h
      | ok st2v =>
        rw [hg] at h
        replace h : (match allocate_open_block st2v with
          | none => Except.error ENODATABLKS
          | some (b3, st3) =>
              Except.ok (f1, setPtr st3
                (st2v.ptrBlocks (f1.inode.dindirect.getD 0 0) 0) 0 b3)) =
            Except.ok (fo, so) := h
        cases halloc3 : allocate_open_block st2v with
        | none =>
          rw [halloc3] at h
          exact Except.noConfusion h
        | some q =>
          obtain ⟨b3, st3v⟩ := q
          rw [halloc3] at h
          replace h : Except.ok (f1, setPtr st3v
              (st2v.ptrBlocks (f1.inode.dindirect.getD 0 0) 0) 0 b3) =
            Except.ok (fo, so) := h
          injection h with h2
          injection h2 with ha hb
          subst ha
          replace hstep : (match allocate_open_block st with
            | none => Except.error ENODATABLKS
            | some (b, st1) =>
                Except.ok ({ f with inode :=
                    { f.inode with dindirect := f.inode.dindirect.set 0 b } },
                  write_inode_to_disk f.dentry.inode
                    { f.inode with dindirect := f.inode.dindirect.set 0 b } st1)) =
              Except.ok (f1, st1) := hstep
          cases halloc : allocate_open_block st with
          | none =>
            rw [halloc] at hstep
            exact Except.noConfusion hstep
          | some r =>
            obtain ⟨b, stb⟩ := r
            rw [halloc] at hstep
            replace hstep : Except.ok ({ f with inode :=
                  { f.inode with dindirect := f.inode.dindirect.set 0 b } },
                write_inode_to_disk f.dentry.inode
                  { f.inode with dindirect := f.inode.dindirect.set 0 b } stb) =
              Except.ok (f1, st1) := hstep
            injection hstep with h3
            injection h3 with hc hd
            subst hc
            exact ⟨b, stb, rfl, rfl, rfl⟩

/-- Witness for claim C1: set-end(0) on a 512-byte file fails with
`-EINVAL`, while growing a 100-byte file to 200 bytes (within its
existing block) succeeds, sets the size to exactly 200, keeps the
directory entry, and stores the updated inode in disk-inode slot
(0, 2) for inode number 2. -/
theorem claim_C1_witness :
    ktfs_cntl_setend fGrown stF (some 0) false = Except.error EINVAL ∧
    ∃ f2 st2, ktfs_cntl_setend fSmall stF (some 200) false = Except.ok (f2, st2) ∧
      f2.inode.size = 200 ∧ f2.dentry = fSmall.dentry ∧
      st2.diskInodes 0 2 = f2.inode := by
  constructor
  · exact (claim_C1_setend fGrown stF 0 false).2.2.1 (by decide)
  · have hrun : ktfs_cntl_setend fSmall stF (some 200) false =
        Except.ok ({ fSmall with inode := { fSmall.inode with size := 200 } },
          write_inode_to_disk fSmall.dentry.inode
            { fSmall.inode with size := 200 } stF) := by
      show (if 200 = fSmall.inode.size then Except.ok (fSmall, stF)
        else if fSmall.inode.size < 200 then ktfs_setend_grow fSmall stF 200 false
        else Except.error EINVAL) = _
      rw [if_neg (by decide), if_pos (by decide)]
      exact grow_clip fSmall stF 200 false (by decide) (by decide)
    obtain ⟨hs, hd, hw⟩ :=
      (claim_C1_setend fSmall stF 200 false).2.2.2.1 _ _ (by decide) hrun
    exact ⟨_, _, hrun, hs, hd, hw⟩


end KernelModel
